import Mathlib

/-!
Verification development for the deflora-spa-service booking API.

The definitions below are a shallow embedding of the TypeScript source:

* `src/utils/calc.ts` — `computeTotals` (monetary totals of a booking's
  snapshotted line items);
* `src/routes/bookings.ts` — `assertTransition` (booking lifecycle state
  machine), the listing query planner (range filters, orderBy chain,
  `expectedPivotCount`, `timestampPivotIndexes`), the cursor codec
  (`encodeToken` / `decodeToken` / `serializePivotValue` /
  `reviveToTimestamp`), nextPageToken construction, and the transactional
  patch / confirm / cancel handlers.

Modelling conventions: JavaScript numbers used as monetary amounts and
quantities are modelled as exact rationals (the claims under study are
exact algebraic identities); machine integers appearing in the codec are
modelled as `Nat` / `Int`; fallible code is modelled with `Except` /
`Option`; the Firestore transaction discipline (a throw aborts the
transaction, so nothing is written) is modelled by `Except`: an `.error`
result leaves the store unchanged.
-/

namespace Deflora

/-- Structural decidable equality for `Except`, so that concrete handler
outcomes can be evaluated with `decide`. -/
instance {ε α : Type} [DecidableEq ε] [DecidableEq α] : DecidableEq (Except ε α) :=
  fun a b =>
    match a, b with
    | Except.ok x, Except.ok y =>
      if h : x = y then isTrue (by rw [h])
      else isFalse (by intro he; cases he; exact h rfl)
    | Except.error x, Except.error y =>
      if h : x = y then isTrue (by rw [h])
      else isFalse (by intro he; cases he; exact h rfl)
    | Except.ok _, Except.error _ => isFalse (by intro he; cases he)
    | Except.error _, Except.ok _ => isFalse (by intro he; cases he)

/-! ## Totals calculator (src/utils/calc.ts, computeTotals) -/

/-- A program selection snapshot as consumed by `computeTotals`:
`qty` (schema: positive integer, default 1) and `priceSnapshot`
(optional in the schema, hence `Option`; the code reads
`p.priceSnapshot ?? 0`). -/
structure ProgramSel where
  qty : ℚ
  priceSnapshot : Option ℚ
  deriving DecidableEq, Repr

/-- A package selection snapshot as consumed by `computeTotals`.
`mapItemPackageToSnapshot` stores a `qty` field on the snapshot, but
`computeTotals` never reads it (its parameter type lists only
`priceSnapshot` for packages); we carry it to state the claims. -/
structure PackageSel where
  qty : Option ℚ
  priceSnapshot : Option ℚ
  deriving DecidableEq, Repr

/-- One booking line item: one person's program and package selections. -/
structure BookingItem where
  programs : List ProgramSel
  packages : List PackageSel
  deriving DecidableEq, Repr

structure Totals where
  subtotal : ℚ
  grandTotal : ℚ
  deriving DecidableEq, Repr

/-- Embedding of `computeTotals` (calc.ts lines 107-123): iterates the
items, adding `(p.priceSnapshot ?? 0) * p.qty` for each program selection
and `p.priceSnapshot ?? 0` for each package selection, then returns
`\x7b subtotal, grandTotal: subtotal \x7d`. -/
def computeTotals (items : List BookingItem) : Totals :=
  let subtotal :=
    items.foldl
      (fun acc it =>
        let acc1 := it.programs.foldl
          (fun a p => a + p.priceSnapshot.getD 0 * p.qty) acc
        it.packages.foldl (fun a p => a + p.priceSnapshot.getD 0) acc1)
      0
  { subtotal := subtotal, grandTotal := subtotal }

/-- The subtotal the specification claims (§4.2 / §8): programs contribute
`unitPrice × qty`; packages contribute `unitPrice × qty` with the package
quantity defaulting to 1 when unspecified. Written from the spec text, to
be compared against `computeTotals`. -/
def claimedSubtotal (items : List BookingItem) : ℚ :=
  (items.map (fun it =>
    (it.programs.map (fun p => p.priceSnapshot.getD 0 * p.qty)).sum +
    (it.packages.map (fun p => p.priceSnapshot.getD 0 * (p.qty.getD 1))).sum)).sum

/-- The subtotal the code actually computes, as a clean sum: programs
contribute `unitPrice × qty`; each package selection contributes its unit
price exactly once (its quantity is ignored). -/
def codeSubtotal (items : List BookingItem) : ℚ :=
  (items.map (fun it =>
    (it.programs.map (fun p => p.priceSnapshot.getD 0 * p.qty)).sum +
    (it.packages.map (fun p => p.priceSnapshot.getD 0)).sum)).sum

/-! ## Lifecycle state machine (bookings.ts, assertTransition) -/

/-- An error value of the shape the route handlers throw: a message plus
an optional `statusCode` property (`new Error(...)` with no assignment to
`statusCode` is modelled by `none`). -/
structure ApiError where
  message : String
  statusCode : Option Nat
  deriving DecidableEq, Repr

/-- The `allowed` transition table of `assertTransition`
(bookings.ts lines 33-44), including the JS fallback `allowed[from] || []`
for unknown states. -/
def allowedTargets : String → List String
  | "pending" => ["confirmed", "canceled", "pending"]
  | "confirmed" => ["canceled", "confirmed"]
  | "canceled" => ["canceled"]
  | _ => []

/-- Embedding of `assertTransition(from, to)`: succeeds when `to` is in
the allowed list for `from`, otherwise throws an error carrying
`statusCode = 400`. -/
def assertTransition (src dst : String) : Except ApiError Unit :=
  if (allowedTargets src).contains dst then Except.ok ()
  else Except.error
    { message := "Invalid status transition " ++ src ++ " -> " ++ dst
      statusCode := some 400 }

/-- The transition table of spec §4.3, written from the spec's words. -/
def specAllowsTransition (src dst : String) : Bool :=
  (src = "pending" && (dst = "pending" || dst = "confirmed" || dst = "canceled")) ||
  (src = "confirmed" && (dst = "confirmed" || dst = "canceled")) ||
  (src = "canceled" && dst = "canceled")

/-- The three booking statuses. -/
def bookingStatuses : List String := ["pending", "confirmed", "canceled"]

/-! ## Timestamps

A Firestore `Timestamp` is a pair of epoch seconds and nanoseconds
(invariant in the SDK: `0 ≤ nanos < 10^9`). The SDK's `toMillis` returns
the JS number `seconds * 1000 + nanoseconds / 1e6` — fractional whenever
the nanoseconds are not a whole number of milliseconds; `fromMillis`
computes `Math.floor(milliseconds / 1000)` seconds and
`Math.round((milliseconds - seconds * 1000) * 1e6)` nanoseconds. JS
numbers are modelled throughout as exact rationals; `Math.floor` is
`Int.floor` and `Math.round` is `round` (both send a half up,
`round x = ⌊x + 1/2⌋`, exactly as JS does). The nanoseconds
`fromMillis` computes are never negative (the millisecond remainder lies
in `[0, 1000)`), so the `toNat` below is lossless. -/

structure Timestamp where
  seconds : Int
  nanos : Nat
  deriving DecidableEq, Repr

def Timestamp.toMillis (t : Timestamp) : ℚ :=
  t.seconds * 1000 + (t.nanos : ℚ) / 1000000

def Timestamp.fromMillis (ms : ℚ) : Timestamp :=
  { seconds := ⌊ms / 1000⌋
    nanos := (round ((ms - ⌊ms / 1000⌋ * 1000) * 1000000)).toNat }

/-! ## Pivot values and the JSON fragment they serialize into -/

/-- A value of an ordering-chain field as it lives in a document or in a
revived pivot tuple: a string, a JS number (modelled as an exact
rational), a Firestore `Timestamp`, or `null`. -/
inductive PivotValue
  | str (s : String)
  | num (n : ℚ)
  | ts (t : Timestamp)
  | null
  deriving DecidableEq, Repr

/-- The JSON image of a pivot slot inside an encoded token: a JSON
string, number or null, or the object form `\x7b"_seconds":…,"_nanoseconds":…\x7d`
that a raw (unserialized) Firestore `Timestamp` instance stringifies to. -/
inductive JsonPivot
  | jstr (s : String)
  | jnum (n : ℚ)
  | jnull
  | jtsobj (seconds nanos : ℚ)
  deriving DecidableEq, Repr

/-- Embedding of `serializePivotValue` (bookings.ts lines 341-345):
a Firestore `Timestamp` becomes its epoch milliseconds; primitives are
preserved as-is (their JSON image). -/
def serializePivotValue : PivotValue → JsonPivot
  | PivotValue.ts t => JsonPivot.jnum t.toMillis
  | PivotValue.str s => JsonPivot.jstr s
  | PivotValue.num n => JsonPivot.jnum n
  | PivotValue.null => JsonPivot.jnull

/-- Embedding of `reviveToTimestamp` (bookings.ts lines 323-339) on the
JSON fragment a decoded token can contain: a number is revived with
`Timestamp.fromMillis`; a timestamp-like object `\x7b_seconds,_nanoseconds\x7d`
is revived from `sec * 1000 + Math.floor(nsec / 1e6)`; `null` falls
through `isTimestampLike` and throws (`none` here). The source would also
attempt `new Date(v)` on a string — date-string parsing is a platform
facility not modelled here; tokens produced by `encodeToken` never carry
a timestamp as a string, so that branch is unreachable in the round-trip
theorems and a string is treated as unrevivable. -/
def reviveToTimestamp : JsonPivot → Option Timestamp
  | JsonPivot.jnum n => some (Timestamp.fromMillis n)
  | JsonPivot.jstr _ => none
  | JsonPivot.jnull => none
  | JsonPivot.jtsobj sec nsec =>
      some (Timestamp.fromMillis (sec * 1000 + (⌊nsec / 1000000⌋ : ℤ)))

/-- A decoded JSON pivot value passed through unchanged (the
`: v` branch of the revival map). -/
def passThrough : JsonPivot → PivotValue
  | JsonPivot.jstr s => PivotValue.str s
  | JsonPivot.jnum n => PivotValue.num n
  | JsonPivot.jnull => PivotValue.null
  | JsonPivot.jtsobj sec nsec =>
      PivotValue.ts (Timestamp.fromMillis (sec * 1000 + (⌊nsec / 1000000⌋ : ℤ)))

/-! ## Query planner (router.get("/") in bookings.ts)

`passThrough` on a raw timestamp object: the code would hand the plain
object to `startAfter`, where the Firestore SDK itself converts
timestamp-like maps; we model that as the same revived timestamp. No
claim depends on this corner. -/

inductive RangeField
  | searchKey
  | createdAt
  deriving DecidableEq, Repr

inductive SortDir
  | asc
  | desc
  deriving DecidableEq, Repr

/-- The validated listing query parameters (QuerySchema, lines 297-306):
`sortBy` defaults to `"createdAt"`, `from` / `to` are parsed into
timestamps upstream of the planner, `q` when present has length ≥ 1. -/
structure ListParams where
  status : Option String
  fromTs : Option Timestamp
  toTs : Option Timestamp
  sortBy : String
  sortDir : SortDir
  q : Option String
  pageSize : Nat
  deriving DecidableEq, Repr

/-- JS truthiness of an optional string (`if (q)`, `if (status)`). -/
def strTruthy (s : Option String) : Bool :=
  match s with
  | some t => t ≠ ""
  | none => false

/-- A value appearing in a `where` predicate. -/
inductive FilterValue
  | fstr (s : String)
  | fts (t : Timestamp)
  | fstrs (l : List String)
  deriving DecidableEq, Repr

/-- One `.where(field, op, value)` call on the query. -/
structure WhereClause where
  field : String
  op : String
  value : FilterValue
  deriving DecidableEq, Repr

/-- Embedding of the status filter (lines 395-408): split on commas,
trim, drop empties; one value becomes `==`, up to ten become `in`, more
than ten are truncated to the first ten. -/
def statusFilters (status : Option String) : List WhereClause :=
  if strTruthy status then
    let statuses :=
      (((status.getD "").splitOn ",").map String.trim).filter (fun s => s ≠ "")
    if statuses.length == 1 then
      [{ field := "status", op := "==", value := FilterValue.fstr (statuses.headD "") }]
    else if statuses.length ≤ 10 then
      [{ field := "status", op := "in", value := FilterValue.fstrs statuses }]
    else
      [{ field := "status", op := "in", value := FilterValue.fstrs (statuses.take 10) }]
  else []

/-- The maximal trailing sentinel character appended for the prefix upper
bound (`""`). -/
def sentinel : String := "\uf8ff"

/-- Embedding of the range-filter section (lines 413-434): when `q` is
truthy the trimmed, upper-cased term bounds a `>=` / `<` pair on the
field the code actually filters (`contact.name`); otherwise `from` / `to`
become inclusive bounds on `createdAt`. -/
def rangeWheres (p : ListParams) : List WhereClause :=
  if strTruthy p.q then
    let upper := ((p.q.getD "").trim).toUpper
    [{ field := "contact.name", op := ">=", value := FilterValue.fstr upper },
     { field := "contact.name", op := "<", value := FilterValue.fstr (upper ++ sentinel) }]
  else
    (match p.fromTs with
     | some t => [{ field := "createdAt", op := ">=", value := FilterValue.fts t }]
     | none => []) ++
    (match p.toTs with
     | some t => [{ field := "createdAt", op := "<=", value := FilterValue.fts t }]
     | none => [])

/-- The `appliedRangeField` marker assigned in the same section. -/
def appliedRangeField (p : ListParams) : Option RangeField :=
  if strTruthy p.q then some RangeField.searchKey
  else if p.fromTs.isSome || p.toTs.isSome then some RangeField.createdAt
  else none

/-- Embedding of the orderBy chain construction (lines 440-460), with
`FieldPath.documentId()` written `"__name__"`: the applied range field's
sort key first, then the requested `sortBy` if different, then the doc-id
tiebreaker. -/
def orderChain (arf : Option RangeField) (sortBy : String) : List String :=
  (match arf with
   | some RangeField.searchKey =>
       "searchKey" :: (if sortBy ≠ "searchKey" then [sortBy] else [])
   | some RangeField.createdAt =>
       "createdAt" :: (if sortBy ≠ "createdAt" then [sortBy] else [])
   | none => [sortBy]) ++ ["__name__"]

/-- Embedding of `expectedPivotCount` (lines 277-295). The JS truthiness
test `sortBy ? 1 : 0` is the non-emptiness test on the string. -/
def expectedPivotCount (arf : Option RangeField) (sortBy : String) : Nat :=
  match arf with
  | some RangeField.searchKey => (if sortBy ≠ "searchKey" then 2 else 1) + 1
  | some RangeField.createdAt => (if sortBy ≠ "createdAt" then 2 else 1) + 1
  | none => (if sortBy ≠ "" then 1 else 0) + 1

/-- Embedding of `timestampPivotIndexes` (lines 348-376), kept
branch-for-branch faithful, including the source's unreachable inner
`sortBy === "createdAt"` check in the `createdAt` arm. -/
def timestampPivotIndexes (arf : Option RangeField) (sortBy : String) : List Nat :=
  match arf with
  | some RangeField.createdAt =>
      0 :: (if sortBy ≠ "createdAt" then
              (if sortBy = "createdAt" then [1] else []) else [])
  | some RangeField.searchKey =>
      if sortBy ≠ "searchKey" then (if sortBy = "createdAt" then [1] else []) else []
  | none => if sortBy = "createdAt" then [0] else []

/-- The advisory-notice condition in the response metadata (lines
543-555): `q && (from || to)`. -/
def metaHasNotice (p : ListParams) : Bool :=
  strTruthy p.q && (p.fromTs.isSome || p.toTs.isSome)

/-! ## Page-token validation and application (lines 463-494) -/

/-- The payload shape `\x7b pivot: unknown[]; v?: number \x7d` of a decoded
token. -/
structure CursorPayload where
  pivot : List JsonPivot
  v : Option Int
  deriving DecidableEq, Repr

/-- The three 400 responses the page-token block can produce. -/
inductive PageTokenError
  | invalidNoPivot
  | countMismatch (expectedPivot got : Nat)
  | malformed
  deriving DecidableEq, Repr

/-- Every page-token rejection is rendered with HTTP status 400. -/
def PageTokenError.statusCode : PageTokenError → Nat := fun _ => 400

/-- The revival map `cursor.pivot.map((v, i) => tsIdxs.includes(i) ?
reviveToTimestamp(v) : v)`; a revival throw is a `none` overall. -/
def revivePivots (tsIdxs : List Nat) : Nat → List JsonPivot → Option (List PivotValue)
  | _, [] => some []
  | i, v :: rest =>
    let rv : Option PivotValue :=
      if tsIdxs.contains i then (reviveToTimestamp v).map PivotValue.ts
      else some (passThrough v)
    match rv, revivePivots tsIdxs (i + 1) rest with
    | some x, some xs => some (x :: xs)
    | _, _ => none

/-- Embedding of the page-token block after a successful decode: the
pivot count must equal `expectedPivotCount` for the current plan, else a
400 naming both counts; only then are the timestamp positions revived and
the pivots handed to `startAfter` (the `ok` payload). A revival throw is
caught as a 400 "Malformed pageToken". -/
def applyPageToken (arf : Option RangeField) (sortBy : String)
    (cursor : CursorPayload) : Except PageTokenError (List PivotValue) :=
  let expected := expectedPivotCount arf sortBy
  if cursor.pivot.length ≠ expected then
    Except.error (PageTokenError.countMismatch expected cursor.pivot.length)
  else
    match revivePivots (timestampPivotIndexes arf sortBy) 0 cursor.pivot with
    | some pivot => Except.ok pivot
    | none => Except.error PageTokenError.malformed

/-! ## nextPageToken pivot construction (lines 501-521) -/

/-- A stored booking document as the pivot builder sees it: its id and a
field lookup. -/
structure StoredDoc where
  id : String
  fields : List (String × PivotValue)
  deriving DecidableEq, Repr

def StoredDoc.get (d : StoredDoc) (f : String) : Option PivotValue :=
  (d.fields.find? (fun kv => kv.1 == f)).map Prod.snd

/-- The `lastData.searchKey ?? ""` slot: the raw stored value with `""`
for missing or null; a raw string/number/null is its JSON image, a raw
`Timestamp` instance stringifies to its `\x7b_seconds,_nanoseconds\x7d` object
form. -/
def searchKeySlot (d : StoredDoc) : JsonPivot :=
  match d.get "searchKey" with
  | none => JsonPivot.jstr ""
  | some PivotValue.null => JsonPivot.jstr ""
  | some (PivotValue.str s) => JsonPivot.jstr s
  | some (PivotValue.num n) => JsonPivot.jnum n
  | some (PivotValue.ts t) => JsonPivot.jtsobj t.seconds t.nanos

/-- Embedding of the `nextPageToken` pivot construction: it mirrors the
orderBy chain, pushing the range-field value first (serialized), the
`sortBy` value if different (serialized, `?? null`), and the document id
last. -/
def buildNextPivot (arf : Option RangeField) (sortBy : String)
    (lastData : StoredDoc) : List JsonPivot :=
  (match arf with
   | some RangeField.searchKey =>
       searchKeySlot lastData ::
         (if sortBy ≠ "searchKey" then
            [serializePivotValue ((lastData.get sortBy).getD PivotValue.null)]
          else [])
   | some RangeField.createdAt =>
       serializePivotValue ((lastData.get "createdAt").getD PivotValue.null) ::
         (if sortBy ≠ "createdAt" then
            [serializePivotValue ((lastData.get sortBy).getD PivotValue.null)]
          else [])
   | none =>
       if sortBy ≠ "" then
         [serializePivotValue ((lastData.get sortBy).getD PivotValue.null)]
       else [])
  ++ [JsonPivot.jstr lastData.id]

/-! ## Catalog documents and snapshot mapping (docTypes.ts, bookings.ts) -/

/-- One duration/price option of a program (docTypes.ts `ProgramDoc`). -/
structure DurationOption where
  durationMinutes : Nat
  price : ℚ
  deriving DecidableEq, Repr

structure ProgramDoc where
  name : String
  ptype : String
  durationOptions : List DurationOption
  currency : String
  isActive : Bool
  deriving DecidableEq, Repr

structure PackageDoc where
  name : String
  description : String
  packagePrice : ℚ
  numberOfPeople : Nat
  durationMinutes : Nat
  currency : String
  isActive : Bool
  deriving DecidableEq, Repr

/-- A program selection as sent by the client
(BookingProgramSelectionSchema): id, quantity, and the requested duration
(optional in the schema). -/
structure ProgramSelInput where
  programId : String
  qty : Nat
  durationSnapshot : Option Nat
  deriving DecidableEq, Repr

/-- A package selection as sent by the client
(BookingPackageSelectionSchema); the route code reads an optional `qty`
off it. -/
structure PackageSelInput where
  packageId : String
  qty : Option Nat
  deriving DecidableEq, Repr

structure ItemInput where
  personName : String
  programs : List ProgramSelInput
  packages : List PackageSelInput
  deriving DecidableEq, Repr

/-- The frozen program snapshot written into a booking
(`mapItemProgramToSnapshot`, bookings.ts lines 46-67). -/
structure ProgramSnapshot where
  programId : String
  qty : Nat
  typeSnapshot : String
  priceSnapshot : ℚ
  nameSnapshot : String
  durationSnapshot : Nat
  currencySnapshot : String
  deriving DecidableEq, Repr

/-- The frozen package snapshot written into a booking
(`mapItemPackageToSnapshot`, bookings.ts lines 69-82). -/
structure PackageSnapshot where
  packageId : String
  qty : Option Nat
  priceSnapshot : ℚ
  nameSnapshot : String
  numberOfPeopleSnapshot : Nat
  durationSnapshot : Nat
  currencySnapshot : String
  deriving DecidableEq, Repr

structure SnapItem where
  personName : String
  programs : List ProgramSnapshot
  packages : List PackageSnapshot
  deriving DecidableEq, Repr

/-- Embedding of `mapItemProgramToSnapshot`: the selection must name one
of the program's existing duration options exactly, else a 400. -/
def mapItemProgramToSnapshot (item : ProgramSelInput) (program : ProgramDoc) :
    Except ApiError ProgramSnapshot :=
  match program.durationOptions.find?
      (fun d => item.durationSnapshot == some d.durationMinutes) with
  | none => Except.error
      { message := "Duration not found", statusCode := some 400 }
  | some d => Except.ok
      { programId := item.programId
        qty := item.qty
        typeSnapshot := program.ptype
        priceSnapshot := d.price
        nameSnapshot := program.name
        durationSnapshot := d.durationMinutes
        currencySnapshot := program.currency }

/-- Embedding of `mapItemPackageToSnapshot`: total, freezes the package's
current price/name/size/duration. -/
def mapItemPackageToSnapshot (item : PackageSelInput) (pkg : PackageDoc) :
    PackageSnapshot :=
  { packageId := item.packageId
    qty := item.qty
    priceSnapshot := pkg.packagePrice
    nameSnapshot := pkg.name
    numberOfPeopleSnapshot := pkg.numberOfPeople
    durationSnapshot := pkg.durationMinutes
    currencySnapshot := pkg.currency }

/-- Snapshot resolution against the catalog (the `snapshotPrograms` /
`snapshotPackages` maps, modelled as lookup functions: found records
present, missing ids absent) followed by the per-item mapping, exactly as
in the POST / and PATCH /:id handlers: a missing catalog record is a 400
naming the offending id. -/
def buildSnapshotItems (progs : String → Option ProgramDoc)
    (pkgs : String → Option PackageDoc) (items : List ItemInput) :
    Except ApiError (List SnapItem) :=
  items.mapM (fun it => do
    let ps ← it.programs.mapM (fun p =>
      match progs p.programId with
      | none => Except.error
          { message := "Program not found: " ++ p.programId
            statusCode := some 400 }
      | some s => mapItemProgramToSnapshot p s)
    let ks ← it.packages.mapM (fun p =>
      match pkgs p.packageId with
      | none => Except.error
          { message := "Package not found: " ++ p.packageId
            statusCode := some 400 }
      | some s => Except.ok (mapItemPackageToSnapshot p s))
    Except.ok { personName := it.personName, programs := ps, packages := ks })

/-- View of a snapshotted item through the eyes of `computeTotals`. -/
def SnapItem.toCalcItem (it : SnapItem) : BookingItem :=
  { programs := it.programs.map (fun p =>
      { qty := (p.qty : ℚ), priceSnapshot := some p.priceSnapshot })
    packages := it.packages.map (fun p =>
      { qty := p.qty.map (fun q => (q : ℚ))
        priceSnapshot := some p.priceSnapshot }) }

/-! ## The booking record and the transactional handlers -/

structure Contact where
  name : Option String
  email : Option String
  phone : Option String
  deriving DecidableEq, Repr

structure Booking where
  status : String
  arrivalAt : Timestamp
  contact : Contact
  items : List SnapItem
  note : String
  partySize : Nat
  totals : Totals
  deriving DecidableEq, Repr

/-- The validated PATCH body (BookingUpdateDetailsSchema): every field
optional; `arrivalAt` is modelled already parsed to a timestamp. -/
structure UpdateDetails where
  arrivalAt : Option Timestamp
  contact : Option Contact
  items : Option (List ItemInput)
  note : Option String
  deriving DecidableEq, Repr

/-- Embedding of the PATCH /:id transaction body (bookings.ts lines
592-654): missing document throws a bare `Error` (no statusCode);
a canceled booking rejects with a 400; otherwise items are re-snapshotted
when supplied, totals recomputed from the fresh snapshots, and the record
rewritten. -/
def patchTransaction (progs : String → Option ProgramDoc)
    (pkgs : String → Option PackageDoc) (snap : Option Booking)
    (updates : UpdateDetails) : Except ApiError Booking :=
  match snap with
  | none => Except.error { message := "Booking not found", statusCode := none }
  | some data =>
    if data.status = "canceled" then
      Except.error
        { message := "Cannot update details of canceled booking"
          statusCode := some 400 }
    else do
      let items ← match updates.items with
        | some its => buildSnapshotItems progs pkgs its
        | none => Except.ok data.items
      let arrivalAt := updates.arrivalAt.getD data.arrivalAt
      let totals := computeTotals (items.map SnapItem.toCalcItem)
      Except.ok { data with
        arrivalAt := arrivalAt
        items := items
        contact := updates.contact.getD data.contact
        note := updates.note.getD data.note
        partySize := items.length
        totals := totals }

/-- Embedding of the POST /:id/confirm transaction body (lines 669-681). -/
def confirmTransaction (snap : Option Booking) : Except ApiError Booking :=
  match snap with
  | none => Except.error { message := "Booking not found", statusCode := none }
  | some data => do
      let _ ← assertTransition data.status "confirmed"
      Except.ok { data with status := "confirmed" }

/-- Embedding of the POST /:id/cancel transaction body (lines 737-749). -/
def cancelTransaction (snap : Option Booking) : Except ApiError Booking :=
  match snap with
  | none => Except.error { message := "Booking not found", statusCode := none }
  | some data => do
      let _ ← assertTransition data.status "canceled"
      Except.ok { data with status := "canceled" }

/-- Embedding of GET /:id (bookings.ts lines 570-585 / 785-797): a
missing document is answered directly with a 404 payload. -/
def getByIdResult (snap : Option Booking) : Except ApiError Booking :=
  match snap with
  | none => Except.error { message := "Booking not found", statusCode := some 404 }
  | some b => Except.ok b

/-- Firestore `runTransaction` discipline: a throw inside the body aborts
the transaction, so the stored record is unchanged; otherwise the body's
write is committed. -/
def runTransaction (snap : Option Booking)
    (body : Option Booking → Except ApiError Booking) : Option Booking :=
  match body snap with
  | Except.ok b => some b
  | Except.error _ => snap

/-- The HTTP status an error is rendered with: errors thrown in handlers
travel through `next(e)`; the service registers no error-handling
middleware (src/index.ts), so Express's default handler answers 500 for
an error without a `statusCode` of its own. -/
def renderedStatus (e : ApiError) : Nat :=
  e.statusCode.getD 500

/-- A 4xx-equivalent response. -/
def isClientStatus (n : Nat) : Prop :=
  400 ≤ n ∧ n < 500

/-! ## UTF-8

Model of `Buffer.from(string, "utf8")` / `buf.toString("utf8")`: a JS
string's code points are encoded to bytes (`List Nat`, each < 256) and
back. The decoder is strict (malformed sequences yield `none`, where
`Buffer` would substitute U+FFFD); no claim touches malformed bytes. -/

def utf8EncodeChar (c : Char) : List Nat :=
  let n := c.toNat
  if n < 0x80 then [n]
  else if n < 0x800 then [0xC0 + n / 64, 0x80 + n % 64]
  else if n < 0x10000 then
    [0xE0 + n / 4096, 0x80 + n / 64 % 64, 0x80 + n % 64]
  else
    [0xF0 + n / 262144, 0x80 + n / 4096 % 64, 0x80 + n / 64 % 64, 0x80 + n % 64]

def utf8Encode (cs : List Char) : List Nat := (cs.map utf8EncodeChar).flatten

/-- Build a character from a code point when it is a valid scalar value. -/
def mkChar? (n : Nat) : Option Char :=
  if n < 0xd800 ∨ (0xdfff < n ∧ n < 0x110000) then some (Char.ofNat n) else none

/-- Decode one UTF-8 scalar from the head of a byte list, returning the
character and the remaining bytes. Overlong encodings and surrogate code
points are rejected. -/
def utf8DecodeOne : List Nat → Option (Char × List Nat)
  | [] => none
  | b :: bs1 =>
    if b < 0x80 then (mkChar? b).map fun c => (c, bs1)
    else if b < 0xC0 then none
    else if b < 0xE0 then
      match bs1 with
      | b2 :: bs2 =>
        if 0x80 ≤ b2 ∧ b2 < 0xC0 then
          let n := (b - 0xC0) * 64 + (b2 - 0x80)
          if 0x80 ≤ n then (mkChar? n).map fun c => (c, bs2) else none
        else none
      | [] => none
    else if b < 0xF0 then
      match bs1 with
      | b2 :: b3 :: bs3 =>
        if (0x80 ≤ b2 ∧ b2 < 0xC0) ∧ (0x80 ≤ b3 ∧ b3 < 0xC0) then
          let n := (b - 0xE0) * 4096 + (b2 - 0x80) * 64 + (b3 - 0x80)
          if 0x800 ≤ n then (mkChar? n).map fun c => (c, bs3) else none
        else none
      | _ => none
    else if b < 0xF8 then
      match bs1 with
      | b2 :: b3 :: b4 :: bs4 =>
        if (0x80 ≤ b2 ∧ b2 < 0xC0) ∧ (0x80 ≤ b3 ∧ b3 < 0xC0) ∧
            (0x80 ≤ b4 ∧ b4 < 0xC0) then
          let n := (b - 0xF0) * 262144 + (b2 - 0x80) * 4096 +
            (b3 - 0x80) * 64 + (b4 - 0x80)
          if 0x10000 ≤ n then (mkChar? n).map fun c => (c, bs4) else none
        else none
      | _ => none
    else none

/-- Decode a byte list scalar by scalar (fuelled; one unit of fuel per
decoded character, so any fuel at or above the byte count suffices). -/
def utf8DecodeF : Nat → List Nat → Option (List Char)
  | _, [] => some []
  | 0, _ :: _ => none
  | fuel + 1, b :: bs =>
    match utf8DecodeOne (b :: bs) with
    | some (c, rest) => (utf8DecodeF fuel rest).map fun cs => c :: cs
    | none => none

def utf8Decode (bs : List Nat) : Option (List Char) := utf8DecodeF bs.length bs

/-! ## Base64 (model of Buffer base64url / base64)

`Buffer.toString("base64url")` emits the RFC 4648 §5 alphabet without
padding; `Buffer.from(s, "base64")` reads the standard alphabet with
padding. `decodeToken` first maps `-` to `+` and `_` to `/` and appends
`=` up to a multiple of four, exactly as in bookings.ts lines 267-274. -/

def b64UrlChar (k : Nat) : Char :=
  if k < 26 then Char.ofNat (65 + k)
  else if k < 52 then Char.ofNat (97 + (k - 26))
  else if k < 62 then Char.ofNat (48 + (k - 52))
  else if k = 62 then Char.ofNat 45
  else Char.ofNat 95

def b64StdVal (c : Char) : Option Nat :=
  let n := c.toNat
  if 65 ≤ n ∧ n ≤ 90 then some (n - 65)
  else if 97 ≤ n ∧ n ≤ 122 then some (n - 97 + 26)
  else if 48 ≤ n ∧ n ≤ 57 then some (n - 48 + 52)
  else if c = '+' then some 62
  else if c = '/' then some 63
  else none

/-- The character replacement of `decodeToken`: every `-` becomes `+`
and every `_` becomes `/` (the two global replace calls). -/
def normChar (c : Char) : Char :=
  if c = '-' then '+' else if c = '_' then '/' else c

def encodeB64Url : List Nat → List Char
  | a :: b :: c :: rest =>
      b64UrlChar (a / 4) :: b64UrlChar (a % 4 * 16 + b / 16) ::
      b64UrlChar (b % 16 * 4 + c / 64) :: b64UrlChar (c % 64) ::
      encodeB64Url rest
  | [a, b] =>
      [b64UrlChar (a / 4), b64UrlChar (a % 4 * 16 + b / 16),
       b64UrlChar (b % 16 * 4)]
  | [a] => [b64UrlChar (a / 4), b64UrlChar (a % 4 * 16)]
  | [] => []

/-- The pad count of `decodeToken`:
`s.length % 4 === 0 ? 0 : 4 - (s.length % 4)`. -/
def b64PadLen (l : Nat) : Nat := if l % 4 = 0 then 0 else 4 - l % 4

/-- The normalization of `decodeToken`: map the URL alphabet to the
standard one and append `=` padding. -/
def normalizePad (cs : List Char) : List Char :=
  cs.map normChar ++ List.replicate (b64PadLen cs.length) '='

def decodeB64 : List Char → Option (List Nat)
  | [] => some []
  | c1 :: c2 :: c3 :: c4 :: rest =>
    match b64StdVal c1, b64StdVal c2 with
    | some w, some x =>
      if c3 = '=' then
        if c4 = '=' ∧ rest = [] then some [w * 4 + x / 16] else none
      else
        match b64StdVal c3 with
        | some y =>
          if c4 = '=' then
            if rest = [] then some [w * 4 + x / 16, x % 16 * 16 + y / 4]
            else none
          else
            match b64StdVal c4 with
            | some z =>
              match decodeB64 rest with
              | some bs =>
                  some ((w * 4 + x / 16) :: (x % 16 * 16 + y / 4) ::
                    (y % 4 * 64 + z) :: bs)
              | none => none
            | none => none
        | none => none
    | _, _ => none
  | _ => none

/-! ## JSON fragment (model of JSON.stringify / JSON.parse on the token
payload)

`encodeToken` stringifies the object `\x7b v: 1, pivot \x7d`; the pivot
slots are strings, integers, `null`, or the `\x7b_seconds,_nanoseconds\x7d`
object form of a raw timestamp. `JSON.stringify` escapes `"`, `\`, and
control characters (with the `\b \t \n \f \r` shortcuts, else `\u00xx`);
all other characters pass through. The parser below is a strict
recursive-descent model of `JSON.parse` on this fragment (it does not
model whitespace tolerance, surrogate-pair escapes, fraction/exponent
number forms, or shapes the token payload cannot take: every token this
service itself emits carries its numbers as plain integers). -/

/-- Little-endian decimal digits, fuelled (fuel > n suffices). -/
def digitsRevAux : Nat → Nat → List Char
  | 0, _ => []
  | fuel + 1, n =>
    if n < 10 then [Nat.digitChar n]
    else Nat.digitChar (n % 10) :: digitsRevAux fuel (n / 10)

/-- The decimal digit string of a natural number. -/
def natDigits (n : Nat) : List Char := (digitsRevAux (n + 1) n).reverse

/-- The decimal representation JS produces for an exact integer. -/
def jsIntRepr (i : Int) : List Char :=
  if i < 0 then '-' :: natDigits i.natAbs else natDigits i.toNat

/-- The decimal fraction digits of `r ∈ [0, 1)`, by repeated
multiplication by ten until the remainder vanishes. The fuel passed
below (1080) exceeds the 1074 fraction digits of the smallest positive
binary64 value, so the expansion is exact for every value a JS number
can hold. -/
def fracDigitsF : Nat → ℚ → List Char
  | 0, _ => []
  | fuel + 1, r =>
    if r = 0 then []
    else Nat.digitChar (⌊r * 10⌋).toNat :: fracDigitsF fuel (r * 10 - ⌊r * 10⌋)

/-- The decimal representation JS produces for a number: integers print
without a decimal point; a fractional value prints its sign, integer
part, and exact fraction digits. (JS prints the shortest decimal
denoting the double; for every number this service ever stringifies —
integers and epoch milliseconds of nanosecond precision, all exactly
representable decimals — that is this exact expansion.) -/
def jsNumRepr (q : ℚ) : List Char :=
  if q.den = 1 then jsIntRepr q.num
  else
    (if q < 0 then ['-'] else []) ++
      (natDigits (⌊|q|⌋).toNat ++ '.' :: fracDigitsF 1080 (|q| - ⌊|q|⌋))

def parseDigitsAcc : Nat → List Char → Nat × List Char
  | acc, c :: cs =>
    if c.isDigit then parseDigitsAcc (acc * 10 + (c.toNat - 48)) cs
    else (acc, c :: cs)
  | acc, [] => (acc, [])

def parseNat : List Char → Option (Nat × List Char)
  | c :: cs =>
    if c.isDigit then some (parseDigitsAcc (c.toNat - 48) cs) else none
  | [] => none

def parseInt : List Char → Option (Int × List Char)
  | [] => none
  | c :: rest =>
    if c = '-' then
      match parseNat rest with
      | some (n, r) => some (-(n : Int), r)
      | none => none
    else
      match parseNat (c :: rest) with
      | some (n, r) => some ((n : Int), r)
      | none => none

/-- Does the input begin with something other than a decimal digit? (The
numeric grammar is greedy, so a number's textual form is delimited by the
following non-digit character.) -/
def headNotDigit : List Char → Bool
  | c :: _ => !c.isDigit
  | [] => true

/-- The numeric value of a digit string. -/
def valDigits (ds : List Char) : Nat :=
  ds.foldl (fun a c => a * 10 + (c.toNat - 48)) 0

/-- The escaping `JSON.stringify` applies to one string character. -/
def escapeChar (c : Char) : List Char :=
  if c = '"' then ['\\', '"']
  else if c = '\\' then ['\\', '\\']
  else if c = '\x08' then ['\\', 'b']
  else if c = '\t' then ['\\', 't']
  else if c = '\n' then ['\\', 'n']
  else if c = '\x0c' then ['\\', 'f']
  else if c = '\r' then ['\\', 'r']
  else if c.toNat < 0x20 then
    ['\\', 'u', '0', '0', Nat.digitChar (c.toNat / 16), Nat.digitChar (c.toNat % 16)]
  else [c]

def escapeChars (cs : List Char) : List Char := (cs.map escapeChar).flatten

def hexVal (c : Char) : Option Nat :=
  let n := c.toNat
  if 48 ≤ n ∧ n ≤ 57 then some (n - 48)
  else if 97 ≤ n ∧ n ≤ 102 then some (n - 97 + 10)
  else if 65 ≤ n ∧ n ≤ 70 then some (n - 65 + 10)
  else none

/-- The single-character escape codes of a JSON string. -/
def unescapeChar (e : Char) : Option Char :=
  if e = '"' then some '"'
  else if e = '\\' then some '\\'
  else if e = '/' then some '/'
  else if e = 'b' then some '\x08'
  else if e = 't' then some '\t'
  else if e = 'n' then some '\n'
  else if e = 'f' then some '\x0c'
  else if e = 'r' then some '\r'
  else none

/-- Parse the body of a JSON string (after the opening quote) up to the
closing quote. Fuelled: any fuel exceeding the number of decoded
characters suffices. -/
def parseJStringF : Nat → List Char → Option (List Char × List Char)
  | 0, _ => none
  | _ + 1, [] => none
  | fuel + 1, c :: cs =>
    if c = '"' then some ([], cs)
    else if c = '\\' then
      match cs with
      | [] => none
      | e :: cs2 =>
        if e = 'u' then
          match cs2 with
          | h1 :: h2 :: h3 :: h4 :: cs3 =>
            match hexVal h1, hexVal h2, hexVal h3, hexVal h4 with
            | some a, some b, some c2, some d =>
              match mkChar? (((a * 16 + b) * 16 + c2) * 16 + d) with
              | some ch =>
                  (parseJStringF fuel cs3).map (fun r => (ch :: r.1, r.2))
              | none => none
            | _, _, _, _ => none
          | _ => none
        else
          match unescapeChar e with
          | some ch => (parseJStringF fuel cs2).map (fun r => (ch :: r.1, r.2))
          | none => none
    else if c.toNat < 0x20 then none
    else (parseJStringF fuel cs).map (fun r => (c :: r.1, r.2))

/-- The JSON text of one pivot slot. -/
def stringifyElem : JsonPivot → List Char
  | JsonPivot.jstr s => '"' :: (escapeChars s.data ++ ['"'])
  | JsonPivot.jnum n => jsNumRepr n
  | JsonPivot.jnull => ['n', 'u', 'l', 'l']
  | JsonPivot.jtsobj sec nsec =>
      '\x7b' :: ("\"_seconds\":".data ++ jsNumRepr sec ++
        (",\"_nanoseconds\":".data ++ (jsNumRepr nsec ++ ['\x7d'])))

/-- The comma-separated JSON texts of the pivot slots. -/
def stringifyElems : List JsonPivot → List Char
  | [] => []
  | [e] => stringifyElem e
  | e :: rest => stringifyElem e ++ ',' :: stringifyElems rest

/-- The JSON text `JSON.stringify(\x7b v, pivot \x7d)` produces. -/
def jsonStringifyToken (v : Int) (pivot : List JsonPivot) : List Char :=
  '\x7b' :: ("\"v\":".data ++ jsIntRepr v ++
    (",\"pivot\":[".data ++ (stringifyElems pivot ++ (']' :: ['\x7d']))))

/-- Match an exact literal character sequence. -/
def expectChars : List Char → List Char → Option (List Char)
  | [], input => some input
  | p :: ps, c :: cs => if c = p then expectChars ps cs else none
  | _ :: _, [] => none

/-- Parse one pivot slot. -/
def parseElem (cs : List Char) : Option (JsonPivot × List Char) :=
  match cs with
  | [] => none
  | c :: rest =>
    if c = '"' then
      match parseJStringF (rest.length + 1) rest with
      | some (body, rest2) => some (JsonPivot.jstr (String.mk body), rest2)
      | none => none
    else if c = 'n' then
      match rest with
      | 'u' :: 'l' :: 'l' :: rest2 => some (JsonPivot.jnull, rest2)
      | _ => none
    else if c = '\x7b' then
      match expectChars ("\"_seconds\":".data) rest with
      | none => none
      | some cs1 =>
        match parseInt cs1 with
        | none => none
        | some (sec, cs2) =>
          match expectChars (",\"_nanoseconds\":".data) cs2 with
          | none => none
          | some cs3 =>
            match parseInt cs3 with
            | none => none
            | some (nsec, cs4) =>
              match cs4 with
              | '\x7d' :: cs5 => some (JsonPivot.jtsobj (sec : ℚ) (nsec : ℚ), cs5)
              | _ => none
    else
      match parseInt (c :: rest) with
      | some (n, rest2) => some (JsonPivot.jnum (n : ℚ), rest2)
      | none => none

/-- Parse one or more comma-separated pivot slots up to the closing `]`.
Fuelled: any fuel at or above the element count suffices. -/
def parseItems : Nat → List Char → Option (List JsonPivot × List Char)
  | 0, _ => none
  | fuel + 1, cs =>
    match parseElem cs with
    | none => none
    | some (e, cs1) =>
      match cs1 with
      | [] => none
      | c :: cs2 =>
        if c = ']' then some ([e], cs2)
        else if c = ',' then
          match parseItems fuel cs2 with
          | none => none
          | some (es, rest) => some (e :: es, rest)
        else none

/-- Parse the full token object `\x7b"v":…,"pivot":[…]\x7d` (the entire
input must be consumed, as `JSON.parse` requires). -/
def jsonParseToken (cs : List Char) : Option CursorPayload :=
  match cs with
  | '\x7b' :: cs0 =>
    match expectChars ("\"v\":".data) cs0 with
    | none => none
    | some cs1 =>
      match parseInt cs1 with
      | none => none
      | some (v, cs2) =>
        match expectChars (",\"pivot\":[".data) cs2 with
        | none => none
        | some cs3 =>
          match cs3 with
          | [] => none
          | c :: cs4 =>
            if c = ']' then
              match cs4 with
              | ['\x7d'] => some { pivot := [], v := some v }
              | _ => none
            else
              match parseItems (cs3.length + 1) (c :: cs4) with
              | none => none
              | some (es, rest) =>
                match rest with
                | ['\x7d'] => some { pivot := es, v := some v }
                | _ => none
  | _ => none

/-! ## The token codec (encodeToken / decodeToken, bookings.ts 264-274) -/

/-- Embedding of `encodeToken(\x7b v, pivot \x7d)`:
`Buffer.from(JSON.stringify(o)).toString("base64url")`. -/
def encodeToken (v : Int) (pivot : List JsonPivot) : List Char :=
  encodeB64Url (utf8Encode (jsonStringifyToken v pivot))

/-- Embedding of `decodeToken`: normalize the alphabet, pad, decode
base64, decode UTF-8, and parse the JSON payload. -/
def decodeToken (token : List Char) : Option CursorPayload :=
  match decodeB64 (normalizePad token) with
  | none => none
  | some bytes =>
    match utf8Decode bytes with
    | none => none
    | some chars => jsonParseToken chars

/-! ## Well-typed pivot tuples -/

/-- A pivot tuple matches a plan's ordering-chain shape when the
positions the plan classifies as timestamps (and only those) hold
`Timestamp` values, each satisfying the SDK invariant (`nanos < 10^9`)
and whole-millisecond precision (`nanos` a multiple of `10^6` —
sub-millisecond precision does not survive the epoch-millisecond
serialization through IEEE-754 formatting at epoch magnitudes), and the
numeric positions hold integers (fractional doubles' JSON text depends
on binary floating-point shortest-decimal formatting, outside the
exact-rational model). -/
def wellTypedFrom (tsIdxs : List Nat) : Nat → List PivotValue → Bool
  | _, [] => true
  | i, p :: rest =>
    (if tsIdxs.contains i then
       match p with
       | PivotValue.ts t =>
           decide (t.nanos % 1000000 = 0) && decide (t.nanos < 1000000000)
       | _ => false
     else
       match p with
       | PivotValue.ts _ => false
       | PivotValue.num q => decide (q.den = 1)
       | _ => true) && wellTypedFrom tsIdxs (i + 1) rest

/-- A JSON pivot slot all of whose numbers are integer-valued — the form
every slot `serializePivotValue` produces from a well-typed tuple takes. -/
def intValued : JsonPivot → Bool
  | JsonPivot.jnum q => decide (q.den = 1)
  | JsonPivot.jtsobj sec nsec => decide (sec.den = 1) && decide (nsec.den = 1)
  | _ => true

/-- The pivot tuple of a date-range listing sorted by the booking's
`arrivalAt` timestamp field — reachable, since `QuerySchema` admits any
string as `sortBy` and booking documents store `arrivalAt` as a
`Timestamp`. Its ordering chain is `[createdAt, arrivalAt, __name__]`,
yet `timestampPivotIndexes` classifies only position 0. -/
def arrivalSortedPivots : List PivotValue :=
  [PivotValue.ts { seconds := 1700000000, nanos := 0 },
   PivotValue.ts { seconds := 1700000100, nanos := 0 },
   PivotValue.str "b00king1"]

/-! ## Helper lemmas -/

/-! ### Base64 round trip -/

theorem b64_norm_url : ∀ k, k < 64 → b64StdVal (normChar (b64UrlChar k)) = some k := by
  decide

theorem b64_norm_url_ne_pad : ∀ k, k < 64 → normChar (b64UrlChar k) ≠ '=' := by
  decide

theorem b64PadLen_add4 (l : Nat) : b64PadLen (l + 4) = b64PadLen l := by
  simp [b64PadLen, Nat.add_mod_right]

theorem decodeB64_roundtrip :
    ∀ (bs : List Nat), (∀ b ∈ bs, b < 256) →
      decodeB64 (normalizePad (encodeB64Url bs)) = some bs
  | [], _ => rfl
  | [a], h => by
    have ha : a < 256 := h a (by simp)
    have e1 := b64_norm_url (a / 4) (by omega)
    have e2 := b64_norm_url (a % 4 * 16) (by omega)
    have hsplit : normalizePad (encodeB64Url [a]) =
        [normChar (b64UrlChar (a / 4)), normChar (b64UrlChar (a % 4 * 16)),
         '=', '='] := rfl
    rw [hsplit]
    simp only [decodeB64, e1, e2, and_self, if_true]
    have r1 : a / 4 * 4 + a % 4 * 16 / 16 = a := by omega
    rw [r1]
  | [a, b], h => by
    have ha : a < 256 := h a (by simp)
    have hb : b < 256 := h b (by simp)
    have e1 := b64_norm_url (a / 4) (by omega)
    have e2 := b64_norm_url (a % 4 * 16 + b / 16) (by omega)
    have e3 := b64_norm_url (b % 16 * 4) (by omega)
    have hne3 := b64_norm_url_ne_pad (b % 16 * 4) (by omega)
    have hsplit : normalizePad (encodeB64Url [a, b]) =
        [normChar (b64UrlChar (a / 4)), normChar (b64UrlChar (a % 4 * 16 + b / 16)),
         normChar (b64UrlChar (b % 16 * 4)), '='] := rfl
    rw [hsplit]
    simp only [decodeB64, e1, e2, e3, if_true]
    have r1 : a / 4 * 4 + (a % 4 * 16 + b / 16) / 16 = a := by omega
    have r2 : (a % 4 * 16 + b / 16) % 16 * 16 + b % 16 * 4 / 4 = b := by omega
    rw [r1, r2, if_neg hne3]
  | a :: b :: c :: rest, h => by
    have ha : a < 256 := h a (by simp)
    have hb : b < 256 := h b (by simp)
    have hc : c < 256 := h c (by simp)
    have htail : ∀ x ∈ rest, x < 256 := fun x hx => h x (by simp [hx])
    have e1 := b64_norm_url (a / 4) (by omega)
    have e2 := b64_norm_url (a % 4 * 16 + b / 16) (by omega)
    have e3 := b64_norm_url (b % 16 * 4 + c / 64) (by omega)
    have e4 := b64_norm_url (c % 64) (by omega)
    have hne3 := b64_norm_url_ne_pad (b % 16 * 4 + c / 64) (by omega)
    have hne4 := b64_norm_url_ne_pad (c % 64) (by omega)
    have hpad : ∀ l : Nat, b64PadLen (l + 1 + 1 + 1 + 1) = b64PadLen l := by
      intro l
      rw [show l + 1 + 1 + 1 + 1 = l + 4 from rfl, b64PadLen_add4]
    have hsplit : normalizePad (encodeB64Url (a :: b :: c :: rest)) =
        normChar (b64UrlChar (a / 4)) ::
        normChar (b64UrlChar (a % 4 * 16 + b / 16)) ::
        normChar (b64UrlChar (b % 16 * 4 + c / 64)) ::
        normChar (b64UrlChar (c % 64)) ::
        normalizePad (encodeB64Url rest) := by
      simp only [encodeB64Url, normalizePad, List.map_cons, List.length_cons,
        hpad, List.cons_append]
    rw [hsplit]
    simp only [decodeB64, e1, e2, e3, e4]
    rw [if_neg hne3, if_neg hne4]
    rw [decodeB64_roundtrip rest htail]
    have r1 : a / 4 * 4 + (a % 4 * 16 + b / 16) / 16 = a := by omega
    have r2 : (a % 4 * 16 + b / 16) % 16 * 16 + (b % 16 * 4 + c / 64) / 4 = b := by
      omega
    have r3 : (b % 16 * 4 + c / 64) % 4 * 64 + c % 64 = c := by omega
    rw [r1, r2, r3]

/-! ### UTF-8 round trip -/

theorem mkChar?_toNat (c : Char) : mkChar? c.toNat = some c := by
  unfold mkChar?
  rw [if_pos, Char.ofNat_toNat]
  exact c.valid

theorem utf8EncodeChar_bytes_lt (c : Char) : ∀ b ∈ utf8EncodeChar c, b < 256 := by
  have hv : c.toNat < 0xd800 ∨ (0xdfff < c.toNat ∧ c.toNat < 0x110000) := c.valid
  intro b hb
  simp only [utf8EncodeChar] at hb
  split_ifs at hb <;> fin_cases hb <;> omega

theorem utf8Encode_bytes_lt (cs : List Char) : ∀ b ∈ utf8Encode cs, b < 256 := by
  induction cs with
  | nil => simp [utf8Encode]
  | cons c rest ih =>
    intro b hb
    simp only [utf8Encode, List.map_cons, List.flatten_cons, List.mem_append] at hb
    rcases hb with hb | hb
    · exact utf8EncodeChar_bytes_lt c b hb
    · exact ih b hb

theorem utf8DecodeOne_encodeChar (c : Char) (bs : List Nat) :
    utf8DecodeOne (utf8EncodeChar c ++ bs) = some (c, bs) := by
  have hv : c.toNat < 0xd800 ∨ (0xdfff < c.toNat ∧ c.toNat < 0x110000) := c.valid
  by_cases h1 : c.toNat < 0x80
  · simp only [utf8EncodeChar, if_pos h1, List.cons_append, List.nil_append]
    rw [utf8DecodeOne.eq_def]
    dsimp only
    rw [if_pos h1, mkChar?_toNat]
    rfl
  · by_cases h2 : c.toNat < 0x800
    · simp only [utf8EncodeChar, if_neg h1, if_pos h2, List.cons_append,
        List.nil_append]
      rw [utf8DecodeOne.eq_def]
      dsimp only
      rw [if_neg (by omega), if_neg (by omega), if_pos (by omega),
        if_pos (by constructor <;> omega)]
      have harith : (0xC0 + c.toNat / 64 - 0xC0) * 64 + (0x80 + c.toNat % 64 - 0x80)
          = c.toNat := by omega
      rw [harith, if_pos (by omega), mkChar?_toNat]
      rfl
    · by_cases h3 : c.toNat < 0x10000
      · simp only [utf8EncodeChar, if_neg h1, if_neg h2, if_pos h3,
          List.cons_append, List.nil_append]
        rw [utf8DecodeOne.eq_def]
        dsimp only
        rw [if_neg (by omega), if_neg (by omega), if_neg (by omega),
          if_pos (by omega),
          if_pos (by refine ⟨⟨?_, ?_⟩, ?_, ?_⟩ <;> omega)]
        have harith : (0xE0 + c.toNat / 4096 - 0xE0) * 4096 +
            (0x80 + c.toNat / 64 % 64 - 0x80) * 64 +
            (0x80 + c.toNat % 64 - 0x80) = c.toNat := by omega
        rw [harith, if_pos (by omega), mkChar?_toNat]
        rfl
      · simp only [utf8EncodeChar, if_neg h1, if_neg h2, if_neg h3,
          List.cons_append, List.nil_append]
        rw [utf8DecodeOne.eq_def]
        dsimp only
        rw [if_neg (by omega), if_neg (by omega), if_neg (by omega),
          if_neg (by omega), if_pos (by omega),
          if_pos (by refine ⟨⟨?_, ?_⟩, ⟨?_, ?_⟩, ?_, ?_⟩ <;> omega)]
        have harith : (0xF0 + c.toNat / 262144 - 0xF0) * 262144 +
            (0x80 + c.toNat / 4096 % 64 - 0x80) * 4096 +
            (0x80 + c.toNat / 64 % 64 - 0x80) * 64 +
            (0x80 + c.toNat % 64 - 0x80) = c.toNat := by omega
        rw [harith, if_pos (by omega), mkChar?_toNat]
        rfl

theorem utf8EncodeChar_length_pos (c : Char) : 1 ≤ (utf8EncodeChar c).length := by
  unfold utf8EncodeChar
  dsimp only
  split_ifs <;> simp

theorem utf8DecodeF_encode (cs : List Char) :
    ∀ (fuel : Nat), (utf8Encode cs).length ≤ fuel →
      utf8DecodeF fuel (utf8Encode cs) = some cs := by
  induction cs with
  | nil => intro fuel _; cases fuel <;> rfl
  | cons c rest ih =>
    intro fuel hfuel
    have hsplit : utf8Encode (c :: rest) = utf8EncodeChar c ++ utf8Encode rest := by
      simp [utf8Encode]
    rw [hsplit] at hfuel ⊢
    have hlen1 := utf8EncodeChar_length_pos c
    obtain ⟨bhd, btl, hb⟩ : ∃ bhd btl, utf8EncodeChar c ++ utf8Encode rest
        = bhd :: btl := by
      cases henc : utf8EncodeChar c with
      | nil => rw [henc] at hlen1; simp at hlen1
      | cons x xs => exact ⟨x, xs ++ utf8Encode rest, by simp [henc]⟩
    obtain ⟨f, rfl⟩ : ∃ f, fuel = f + 1 := by
      rw [hb] at hfuel
      cases fuel with
      | zero => simp at hfuel
      | succ f => exact ⟨f, rfl⟩
    rw [hb, utf8DecodeF, ← hb, utf8DecodeOne_encodeChar c (utf8Encode rest)]
    dsimp only
    rw [ih f (by rw [List.length_append] at hfuel; omega)]
    rfl

theorem utf8Decode_encode (cs : List Char) : utf8Decode (utf8Encode cs) = some cs :=
  utf8DecodeF_encode cs (utf8Encode cs).length le_rfl

/-! ### Decimal digits round trip -/

theorem digitChar_isDigit : ∀ k, k < 10 → (Nat.digitChar k).isDigit = true := by
  decide

theorem digitChar_val : ∀ k, k < 10 → (Nat.digitChar k).toNat - 48 = k := by
  decide

theorem digitsRevAux_extra (n : Nat) :
    ∀ f1 f2, n < f1 → n < f2 → digitsRevAux f1 n = digitsRevAux f2 n := by
  induction n using Nat.strong_induction_on with
  | _ n ih =>
    intro f1 f2 h1 h2
    cases f1 with
    | zero => omega
    | succ g1 =>
      cases f2 with
      | zero => omega
      | succ g2 =>
        simp only [digitsRevAux]
        by_cases hn : n < 10
        · simp [hn]
        · simp only [if_neg hn]
          rw [ih (n / 10) (by omega) g1 g2 (by omega) (by omega)]

theorem digitsRevAux_all_digits (n : Nat) :
    ∀ fuel, ∀ c ∈ digitsRevAux fuel n, c.isDigit = true := by
  induction n using Nat.strong_induction_on with
  | _ n ih =>
    intro fuel c hc
    cases fuel with
    | zero => simp [digitsRevAux] at hc
    | succ g =>
      simp only [digitsRevAux] at hc
      by_cases hn : n < 10
      · rw [if_pos hn] at hc
        simp at hc
        rw [hc]
        exact digitChar_isDigit n hn
      · rw [if_neg hn] at hc
        simp only [List.mem_cons] at hc
        rcases hc with rfl | hc
        · exact digitChar_isDigit (n % 10) (by omega)
        · exact ih (n / 10) (by omega) g c hc

theorem valDigits_append_last (xs : List Char) (c : Char) :
    valDigits (xs ++ [c]) = valDigits xs * 10 + (c.toNat - 48) := by
  simp [valDigits, List.foldl_append]

theorem natDigits_val (n : Nat) : valDigits (natDigits n) = n := by
  induction n using Nat.strong_induction_on with
  | _ n ih =>
    by_cases hn : n < 10
    · have : natDigits n = [Nat.digitChar n] := by
        simp [natDigits, digitsRevAux, hn]
      rw [this]
      have := digitChar_val n hn
      simp [valDigits]
      omega
    · have h1 : digitsRevAux (n + 1) n =
          Nat.digitChar (n % 10) :: digitsRevAux n (n / 10) := by
        simp only [digitsRevAux, if_neg hn]
      have h2 : digitsRevAux n (n / 10) = digitsRevAux (n / 10 + 1) (n / 10) :=
        digitsRevAux_extra (n / 10) n (n / 10 + 1) (by omega) (by omega)
      have hstep : natDigits n = natDigits (n / 10) ++ [Nat.digitChar (n % 10)] := by
        unfold natDigits
        rw [h1, h2, List.reverse_cons]
      rw [hstep, valDigits_append_last, ih (n / 10) (by omega),
        digitChar_val (n % 10) (by omega)]
      omega

theorem natDigits_all_digits (n : Nat) : ∀ c ∈ natDigits n, c.isDigit = true := by
  intro c hc
  simp only [natDigits, List.mem_reverse] at hc
  exact digitsRevAux_all_digits n (n + 1) c hc

theorem natDigits_ne_nil (n : Nat) : natDigits n ≠ [] := by
  unfold natDigits
  intro h
  rw [List.reverse_eq_nil_iff] at h
  by_cases hn : n < 10
  · simp [digitsRevAux, hn] at h
  · simp [digitsRevAux, hn] at h

theorem parseDigitsAcc_append (ds : List Char) :
    ∀ (acc : Nat) (rest : List Char), (∀ c ∈ ds, c.isDigit = true) →
      headNotDigit rest = true →
      parseDigitsAcc acc (ds ++ rest) =
        (ds.foldl (fun a c => a * 10 + (c.toNat - 48)) acc, rest) := by
  induction ds with
  | nil =>
    intro acc rest _ hrest
    cases rest with
    | nil => rfl
    | cons r rs =>
      simp only [headNotDigit, Bool.not_eq_true'] at hrest
      simp [parseDigitsAcc, hrest]
  | cons d ds ih =>
    intro acc rest hds hrest
    have hd : d.isDigit = true := hds d (by simp)
    simp only [List.cons_append, parseDigitsAcc, if_pos hd, List.foldl_cons]
    exact ih _ rest (fun c hc => hds c (by simp [hc])) hrest

theorem parseNat_natDigits (n : Nat) (rest : List Char)
    (hrest : headNotDigit rest = true) :
    parseNat (natDigits n ++ rest) = some (n, rest) := by
  cases hnd : natDigits n with
  | nil => exact absurd hnd (natDigits_ne_nil n)
  | cons c cs =>
    have hall : ∀ x ∈ natDigits n, x.isDigit = true := natDigits_all_digits n
    have hc : c.isDigit = true := hall c (by rw [hnd]; simp)
    have hcs : ∀ x ∈ cs, x.isDigit = true := fun x hx =>
      hall x (by rw [hnd]; simp [hx])
    simp only [List.cons_append, parseNat, if_pos hc]
    rw [parseDigitsAcc_append cs (c.toNat - 48) rest hcs hrest]
    have hval : valDigits (natDigits n) = n := natDigits_val n
    rw [hnd] at hval
    simp only [valDigits, List.foldl_cons] at hval
    rw [show (0 * 10 + (c.toNat - 48)) = c.toNat - 48 by omega] at hval
    rw [hval]

theorem digit_head_ne (c : Char) (h : c.isDigit = true) :
    c ≠ '-' ∧ c ≠ '"' ∧ c ≠ 'n' ∧ c ≠ '\x7b' := by
  refine ⟨?_, ?_, ?_, ?_⟩ <;> rintro rfl <;> simp [Char.isDigit] at h

theorem parseInt_repr (i : Int) (rest : List Char)
    (hrest : headNotDigit rest = true) :
    parseInt (jsIntRepr i ++ rest) = some (i, rest) := by
  by_cases hi : i < 0
  · simp only [jsIntRepr, if_pos hi, List.cons_append, parseInt, if_pos rfl, if_true,
      parseNat_natDigits i.natAbs rest hrest]
    have hcast : -((i.natAbs : Nat) : Int) = i := by omega
    rw [hcast]
  · simp only [jsIntRepr, if_neg hi]
    cases hnd : natDigits i.toNat with
    | nil => exact absurd hnd (natDigits_ne_nil i.toNat)
    | cons c cs =>
      have hc : c.isDigit = true := natDigits_all_digits i.toNat c (by rw [hnd]; simp)
      have hne := (digit_head_ne c hc).1
      rw [List.cons_append, parseInt.eq_def]
      dsimp only
      rw [if_neg hne]
      rw [← List.cons_append, ← hnd, parseNat_natDigits i.toNat rest hrest]
      dsimp only
      have hcast : ((i.toNat : Nat) : Int) = i := by omega
      rw [hcast]

theorem intCast_num_eq (q : ℚ) (h : q.den = 1) : ((q.num : ℚ)) = q := by
  conv_rhs => rw [← Rat.num_div_den q]
  rw [h]
  simp

theorem jsNumRepr_int (q : ℚ) (h : q.den = 1) : jsNumRepr q = jsIntRepr q.num := by
  simp [jsNumRepr, h]

/-! ### JSON string escaping round trip -/

theorem hexVal_digitChar : ∀ k, k < 16 → hexVal (Nat.digitChar k) = some k := by
  decide

theorem parseJStringF_quote (f : Nat) (tail : List Char) :
    parseJStringF (f + 1) ('"' :: tail) = some ([], tail) := by
  simp only [parseJStringF, if_true]

theorem parseJStringF_cons_escape (f : Nat) (e ch : Char) (tail : List Char)
    (he : unescapeChar e = some ch) (hne : ¬ e = 'u') :
    parseJStringF (f + 1) ('\\' :: e :: tail) =
      (parseJStringF f tail).map (fun r => (ch :: r.1, r.2)) := by
  simp only [parseJStringF, if_true]
  rw [if_neg hne, he, if_neg (show ¬ ('\\' : Char) = '"' by decide)]

theorem parseJStringF_cons_hex (f : Nat) (x1 x2 x3 x4 : Char) (a b c2 d : Nat)
    (ch : Char) (tail : List Char)
    (e1 : hexVal x1 = some a) (e2 : hexVal x2 = some b)
    (e3 : hexVal x3 = some c2) (e4 : hexVal x4 = some d)
    (hch : mkChar? (((a * 16 + b) * 16 + c2) * 16 + d) = some ch) :
    parseJStringF (f + 1) ('\\' :: 'u' :: x1 :: x2 :: x3 :: x4 :: tail) =
      (parseJStringF f tail).map (fun r => (ch :: r.1, r.2)) := by
  simp only [parseJStringF, if_true]
  rw [e1, e2, e3, e4]
  dsimp only
  rw [hch, if_neg (show ¬ ('\\' : Char) = '"' by decide)]

theorem parseJStringF_cons_plain (f : Nat) (c : Char) (tail : List Char)
    (h1 : ¬ c = '"') (h2 : ¬ c = '\\') (h3 : ¬ c.toNat < 0x20) :
    parseJStringF (f + 1) (c :: tail) =
      (parseJStringF f tail).map (fun r => (c :: r.1, r.2)) := by
  simp only [parseJStringF]
  rw [if_neg h1, if_neg h2, if_neg h3]

theorem parseJStringF_escape (cs : List Char) :
    ∀ (fuel : Nat) (rest : List Char), cs.length < fuel →
      parseJStringF fuel (escapeChars cs ++ '"' :: rest) = some (cs, rest) := by
  induction cs with
  | nil =>
    intro fuel rest hfuel
    obtain ⟨f, rfl⟩ : ∃ f, fuel = f + 1 := by
      cases fuel with
      | zero => omega
      | succ f => exact ⟨f, rfl⟩
    have : escapeChars [] = [] := rfl
    rw [this, List.nil_append, parseJStringF_quote]
  | cons c cs ih =>
    intro fuel rest hfuel
    obtain ⟨f, rfl⟩ : ∃ f, fuel = f + 1 := by
      cases fuel with
      | zero => omega
      | succ f => exact ⟨f, rfl⟩
    have hf : cs.length < f := by
      simp only [List.length_cons] at hfuel
      omega
    have hsplit : escapeChars (c :: cs) = escapeChar c ++ escapeChars cs := by
      simp [escapeChars]
    rw [hsplit, List.append_assoc]
    by_cases hc1 : c = '"'
    · subst hc1
      rw [show escapeChar '"' = ['\\', '"'] from rfl]
      rw [show (['\\', '"'] : List Char) ++ (escapeChars cs ++ '"' :: rest)
          = '\\' :: '"' :: (escapeChars cs ++ '"' :: rest) from rfl]
      rw [parseJStringF_cons_escape f '"' '"' _ rfl (by decide), ih f rest hf]
      rfl
    · by_cases hc2 : c = '\\'
      · subst hc2
        rw [show escapeChar '\\' = ['\\', '\\'] from rfl]
        rw [show (['\\', '\\'] : List Char) ++ (escapeChars cs ++ '"' :: rest)
            = '\\' :: '\\' :: (escapeChars cs ++ '"' :: rest) from rfl]
        rw [parseJStringF_cons_escape f '\\' '\\' _ rfl (by decide), ih f rest hf]
        rfl
      · by_cases hc3 : c = '\x08'
        · subst hc3
          rw [show escapeChar '\x08' = ['\\', 'b'] from rfl]
          rw [show (['\\', 'b'] : List Char) ++ (escapeChars cs ++ '"' :: rest)
              = '\\' :: 'b' :: (escapeChars cs ++ '"' :: rest) from rfl]
          rw [parseJStringF_cons_escape f 'b' '\x08' _ rfl (by decide), ih f rest hf]
          rfl
        · by_cases hc4 : c = '\t'
          · subst hc4
            rw [show escapeChar '\t' = ['\\', 't'] from rfl]
            rw [show (['\\', 't'] : List Char) ++ (escapeChars cs ++ '"' :: rest)
                = '\\' :: 't' :: (escapeChars cs ++ '"' :: rest) from rfl]
            rw [parseJStringF_cons_escape f 't' '\t' _ rfl (by decide), ih f rest hf]
            rfl
          · by_cases hc5 : c = '\n'
            · subst hc5
              rw [show escapeChar '\n' = ['\\', 'n'] from rfl]
              rw [show (['\\', 'n'] : List Char) ++ (escapeChars cs ++ '"' :: rest)
                  = '\\' :: 'n' :: (escapeChars cs ++ '"' :: rest) from rfl]
              rw [parseJStringF_cons_escape f 'n' '\n' _ rfl (by decide),
                ih f rest hf]
              rfl
            · by_cases hc6 : c = '\x0c'
              · subst hc6
                rw [show escapeChar '\x0c' = ['\\', 'f'] from rfl]
                rw [show (['\\', 'f'] : List Char) ++ (escapeChars cs ++ '"' :: rest)
                    = '\\' :: 'f' :: (escapeChars cs ++ '"' :: rest) from rfl]
                rw [parseJStringF_cons_escape f 'f' '\x0c' _ rfl (by decide),
                  ih f rest hf]
                rfl
              · by_cases hc7 : c = '\r'
                · subst hc7
                  rw [show escapeChar '\r' = ['\\', 'r'] from rfl]
                  rw [show (['\\', 'r'] : List Char) ++ (escapeChars cs ++ '"' :: rest)
                      = '\\' :: 'r' :: (escapeChars cs ++ '"' :: rest) from rfl]
                  rw [parseJStringF_cons_escape f 'r' '\r' _ rfl (by decide),
                    ih f rest hf]
                  rfl
                · by_cases hc8 : c.toNat < 0x20
                  · have hesc : escapeChar c = ['\\', 'u', '0', '0',
                        Nat.digitChar (c.toNat / 16), Nat.digitChar (c.toNat % 16)] := by
                      unfold escapeChar
                      rw [if_neg hc1, if_neg hc2, if_neg hc3, if_neg hc4,
                        if_neg hc5, if_neg hc6, if_neg hc7, if_pos hc8]
                    rw [hesc]
                    rw [show (['\\', 'u', '0', '0', Nat.digitChar (c.toNat / 16),
                        Nat.digitChar (c.toNat % 16)] : List Char) ++
                        (escapeChars cs ++ '"' :: rest)
                        = '\\' :: 'u' :: '0' :: '0' :: Nat.digitChar (c.toNat / 16) ::
                          Nat.digitChar (c.toNat % 16) ::
                          (escapeChars cs ++ '"' :: rest) from rfl]
                    have harith : ((0 * 16 + 0) * 16 + c.toNat / 16) * 16 + c.toNat % 16
                        = c.toNat := by omega
                    rw [parseJStringF_cons_hex f '0' '0'
                        (Nat.digitChar (c.toNat / 16)) (Nat.digitChar (c.toNat % 16))
                        0 0 (c.toNat / 16) (c.toNat % 16) c _
                        rfl rfl
                        (hexVal_digitChar (c.toNat / 16) (by omega))
                        (hexVal_digitChar (c.toNat % 16) (by omega))
                        (by rw [harith]; exact mkChar?_toNat c),
                      ih f rest hf]
                    rfl
                  · have hesc : escapeChar c = [c] := by
                      unfold escapeChar
                      rw [if_neg hc1, if_neg hc2, if_neg hc3, if_neg hc4,
                        if_neg hc5, if_neg hc6, if_neg hc7, if_neg hc8]
                    rw [hesc, List.singleton_append,
                      parseJStringF_cons_plain f c _ hc1 hc2 hc8, ih f rest hf]
                    rfl

/-! ### JSON element and token round trip -/

theorem expectChars_append (ps : List Char) :
    ∀ rest, expectChars ps (ps ++ rest) = some rest := by
  induction ps with
  | nil => intro rest; rfl
  | cons p ps ih =>
    intro rest
    simp only [List.cons_append, expectChars, if_pos rfl]
    exact ih rest

theorem escapeChar_length_pos (c : Char) : 1 ≤ (escapeChar c).length := by
  unfold escapeChar
  split_ifs <;> simp

theorem escapeChars_length_ge (cs : List Char) :
    cs.length ≤ (escapeChars cs).length := by
  induction cs with
  | nil => simp [escapeChars]
  | cons c cs ih =>
    have hsplit : escapeChars (c :: cs) = escapeChar c ++ escapeChars cs := by
      simp [escapeChars]
    rw [hsplit, List.length_append, List.length_cons]
    have := escapeChar_length_pos c
    omega

theorem digit_ne_rbracket (c : Char) (h : c.isDigit = true) : ¬ c = ']' := by
  rintro rfl
  simp [Char.isDigit] at h

theorem parseElem_stringify (e : JsonPivot) (rest : List Char)
    (hrest : headNotDigit rest = true) (hint : intValued e = true) :
    parseElem (stringifyElem e ++ rest) = some (e, rest) := by
  cases e with
  | jstr s =>
    have hshape : stringifyElem (JsonPivot.jstr s) ++ rest =
        '"' :: (escapeChars s.data ++ '"' :: rest) := by
      simp [stringifyElem, List.append_assoc]
    rw [hshape]
    simp only [parseElem, if_true]
    have hfuel : s.data.length < (escapeChars s.data ++ '"' :: rest).length + 1 := by
      have h1 := escapeChars_length_ge s.data
      rw [List.length_append]
      omega
    rw [parseJStringF_escape s.data _ rest hfuel]
  | jnum q =>
    have hden : q.den = 1 := by
      simpa [intValued] using hint
    have hrepr : stringifyElem (JsonPivot.jnum q) = jsIntRepr q.num := by
      simp [stringifyElem, jsNumRepr_int q hden]
    by_cases hn : q.num < 0
    · have hshape : stringifyElem (JsonPivot.jnum q) ++ rest =
          '-' :: (natDigits q.num.natAbs ++ rest) := by
        rw [hrepr]
        simp only [jsIntRepr, if_pos hn, List.cons_append]
      rw [hshape]
      simp only [parseElem]
      rw [if_neg (by decide), if_neg (by decide), if_neg (by decide)]
      rw [show ('-' :: (natDigits q.num.natAbs ++ rest))
          = jsIntRepr q.num ++ rest by
        simp only [jsIntRepr, if_pos hn, List.cons_append]]
      rw [parseInt_repr q.num rest hrest]
      dsimp only
      rw [intCast_num_eq q hden]
    · cases hnd : natDigits q.num.toNat with
      | nil => exact absurd hnd (natDigits_ne_nil q.num.toNat)
      | cons c cs =>
        have hc : c.isDigit = true :=
          natDigits_all_digits q.num.toNat c (by rw [hnd]; simp)
        have hne := digit_head_ne c hc
        have hshape : stringifyElem (JsonPivot.jnum q) ++ rest =
            c :: (cs ++ rest) := by
          rw [hrepr]
          simp only [jsIntRepr, if_neg hn, hnd, List.cons_append]
        rw [hshape]
        simp only [parseElem]
        rw [if_neg hne.2.1, if_neg hne.2.2.1, if_neg hne.2.2.2]
        rw [show (c :: (cs ++ rest)) = jsIntRepr q.num ++ rest by
          simp only [jsIntRepr, if_neg hn, hnd, List.cons_append]]
        rw [parseInt_repr q.num rest hrest]
        dsimp only
        rw [intCast_num_eq q hden]
  | jnull =>
    have hshape : stringifyElem JsonPivot.jnull ++ rest =
        'n' :: 'u' :: 'l' :: 'l' :: rest := rfl
    rw [hshape]
    simp only [parseElem, if_true]
    rw [if_neg (show ¬ ('n' : Char) = '"' by decide)]
  | jtsobj sec nsec =>
    have hsec : sec.den = 1 := by
      have := hint
      simp only [intValued, Bool.and_eq_true, decide_eq_true_eq] at this
      exact this.1
    have hnsec : nsec.den = 1 := by
      have := hint
      simp only [intValued, Bool.and_eq_true, decide_eq_true_eq] at this
      exact this.2
    have hshape : stringifyElem (JsonPivot.jtsobj sec nsec) ++ rest =
        '\x7b' :: ("\"_seconds\":".data ++ (jsIntRepr sec.num ++
          (",\"_nanoseconds\":".data ++
            (jsIntRepr nsec.num ++ '\x7d' :: rest)))) := by
      simp [stringifyElem, jsNumRepr_int sec hsec, jsNumRepr_int nsec hnsec,
        List.append_assoc]
    rw [hshape]
    simp only [parseElem, if_true]
    rw [expectChars_append]
    dsimp only
    rw [parseInt_repr sec.num _ (by rfl)]
    dsimp only
    rw [expectChars_append]
    dsimp only
    rw [parseInt_repr nsec.num _ (by rfl)]
    rw [if_neg (show ¬ ('\x7b' : Char) = '"' by decide),
      if_neg (show ¬ ('\x7b' : Char) = 'n' by decide)]
    dsimp only
    rw [intCast_num_eq sec hsec, intCast_num_eq nsec hnsec]
    rfl

theorem jsIntRepr_length_pos (i : Int) : 1 ≤ (jsIntRepr i).length := by
  by_cases hn : i < 0
  · simp [jsIntRepr, hn]
  · have h := natDigits_ne_nil i.toNat
    have : 0 < (natDigits i.toNat).length := List.length_pos.mpr h
    simp only [jsIntRepr, if_neg hn]
    omega

theorem jsNumRepr_length_pos (q : ℚ) : 1 ≤ (jsNumRepr q).length := by
  by_cases hden : q.den = 1
  · rw [jsNumRepr_int q hden]
    exact jsIntRepr_length_pos q.num
  · simp only [jsNumRepr, if_neg hden, List.length_append, List.length_cons]
    omega

theorem stringifyElem_length_pos (e : JsonPivot) : 1 ≤ (stringifyElem e).length := by
  cases e with
  | jstr s => simp [stringifyElem]
  | jnum n => simpa [stringifyElem] using jsNumRepr_length_pos n
  | jnull => simp [stringifyElem]
  | jtsobj sec nsec => simp [stringifyElem]

theorem stringifyElems_length_ge :
    ∀ es : List JsonPivot, es.length ≤ (stringifyElems es).length := by
  intro es
  induction es with
  | nil => simp [stringifyElems]
  | cons e tail ih =>
    cases tail with
    | nil => simpa [stringifyElems] using stringifyElem_length_pos e
    | cons e2 es2 =>
      rw [show stringifyElems (e :: e2 :: es2)
          = stringifyElem e ++ ',' :: stringifyElems (e2 :: es2) from rfl]
      rw [List.length_append]
      have h1 := stringifyElem_length_pos e
      simp only [List.length_cons] at ih ⊢
      omega

theorem jsIntRepr_head (i : Int) :
    ∃ c t, jsIntRepr i = c :: t ∧ ¬ c = ']' := by
  by_cases hn : i < 0
  · exact ⟨'-', natDigits i.natAbs, by simp [jsIntRepr, hn], by decide⟩
  · cases hnd : natDigits i.toNat with
    | nil => exact absurd hnd (natDigits_ne_nil i.toNat)
    | cons c cs =>
      have hc : c.isDigit = true :=
        natDigits_all_digits i.toNat c (by rw [hnd]; simp)
      exact ⟨c, cs, by simp [jsIntRepr, hn, hnd], digit_ne_rbracket c hc⟩

theorem jsNumRepr_head (q : ℚ) :
    ∃ c t, jsNumRepr q = c :: t ∧ ¬ c = ']' := by
  by_cases hden : q.den = 1
  · rw [jsNumRepr_int q hden]
    exact jsIntRepr_head q.num
  · by_cases hq : q < 0
    · refine ⟨'-', natDigits (⌊|q|⌋).toNat ++ '.' :: fracDigitsF 1080 (|q| - ⌊|q|⌋),
        ?_, by decide⟩
      simp [jsNumRepr, hden, hq]
    · cases hnd : natDigits (⌊|q|⌋).toNat with
      | nil => exact absurd hnd (natDigits_ne_nil _)
      | cons c cs =>
        have hc : c.isDigit = true :=
          natDigits_all_digits _ c (by rw [hnd]; simp)
        refine ⟨c, cs ++ '.' :: fracDigitsF 1080 (|q| - ⌊|q|⌋), ?_,
          digit_ne_rbracket c hc⟩
        simp [jsNumRepr, hden, hq, hnd]

theorem stringifyElems_head (e : JsonPivot) (es : List JsonPivot) :
    ∃ c t, stringifyElems (e :: es) = c :: t ∧ ¬ c = ']' := by
  have hhead : ∃ c t, stringifyElem e = c :: t ∧ ¬ c = ']' := by
    cases e with
    | jstr s => exact ⟨'"', _, rfl, by decide⟩
    | jnum n =>
      obtain ⟨c, t, hct, hcne⟩ := jsNumRepr_head n
      exact ⟨c, t, by simp [stringifyElem, hct], hcne⟩
    | jnull => exact ⟨'n', _, rfl, by decide⟩
    | jtsobj sec nsec => exact ⟨'\x7b', _, rfl, by decide⟩
  obtain ⟨c, t, hct, hcne⟩ := hhead
  cases es with
  | nil => exact ⟨c, t, by rw [show stringifyElems [e] = stringifyElem e from rfl, hct],
      hcne⟩
  | cons e2 es2 =>
    refine ⟨c, t ++ ',' :: stringifyElems (e2 :: es2), ?_, hcne⟩
    rw [show stringifyElems (e :: e2 :: es2)
        = stringifyElem e ++ ',' :: stringifyElems (e2 :: es2) from rfl, hct]
    rfl

theorem parseItems_stringify :
    ∀ es : List JsonPivot, es ≠ [] → (∀ e ∈ es, intValued e = true) →
      ∀ (fuel : Nat) (rest : List Char), es.length ≤ fuel →
        parseItems fuel (stringifyElems es ++ ']' :: rest) = some (es, rest) := by
  intro es
  induction es with
  | nil => intro h; exact absurd rfl h
  | cons e tail ih =>
    intro _ hall fuel rest hfuel
    have he : intValued e = true := hall e (by simp)
    obtain ⟨f, rfl⟩ : ∃ f, fuel = f + 1 := by
      cases fuel with
      | zero => simp at hfuel
      | succ f => exact ⟨f, rfl⟩
    cases tail with
    | nil =>
      rw [show stringifyElems [e] = stringifyElem e from rfl]
      simp only [parseItems]
      rw [parseElem_stringify e (']' :: rest) (by rfl) he]
      rfl
    | cons e2 es2 =>
      rw [show stringifyElems (e :: e2 :: es2)
          = stringifyElem e ++ ',' :: stringifyElems (e2 :: es2) from rfl,
        List.append_assoc]
      rw [show (',' :: stringifyElems (e2 :: es2)) ++ ']' :: rest
          = ',' :: (stringifyElems (e2 :: es2) ++ ']' :: rest) from rfl]
      simp only [parseItems]
      rw [parseElem_stringify e
        (',' :: (stringifyElems (e2 :: es2) ++ ']' :: rest)) (by rfl) he]
      dsimp only
      rw [if_neg (show ¬ (',' : Char) = ']' by decide), if_pos rfl]
      rw [ih (by simp) (fun x hx => hall x (by simp [hx])) f rest
        (by simp only [List.length_cons] at hfuel ⊢; omega)]

theorem jsonParseToken_stringify (v : Int) (pivot : List JsonPivot)
    (hall : ∀ e ∈ pivot, intValued e = true) :
    jsonParseToken (jsonStringifyToken v pivot) =
      some { pivot := pivot, v := some v } := by
  have hshape : jsonStringifyToken v pivot =
      '\x7b' :: ("\"v\":".data ++ (jsIntRepr v ++
        (",\"pivot\":[".data ++ (stringifyElems pivot ++ (']' :: ['\x7d']))))) := by
    simp [jsonStringifyToken, List.append_assoc]
  rw [hshape]
  simp only [jsonParseToken]
  rw [expectChars_append]
  dsimp only
  rw [parseInt_repr v _ (by rfl)]
  dsimp only
  rw [expectChars_append]
  dsimp only
  cases pivot with
  | nil =>
    rw [show stringifyElems ([] : List JsonPivot) ++ (']' :: ['\x7d'])
        = ']' :: ['\x7d'] from rfl]
    rfl
  | cons e es =>
    obtain ⟨c, t, hct, hcne⟩ := stringifyElems_head e es
    rw [show stringifyElems (e :: es) ++ (']' :: ['\x7d'])
        = c :: (t ++ ']' :: ['\x7d']) by rw [hct]; rfl]
    dsimp only
    rw [if_neg hcne]
    rw [show c :: (t ++ ']' :: ['\x7d'])
        = stringifyElems (e :: es) ++ ']' :: ['\x7d'] by rw [hct]; rfl]
    rw [parseItems_stringify (e :: es) (by simp) hall _ ['\x7d']
      (by
        have h1 := stringifyElems_length_ge (e :: es)
        simp only [List.length_cons, List.length_append] at h1 ⊢
        omega)]
    rfl

theorem decodeToken_encodeToken (v : Int) (pivot : List JsonPivot)
    (hall : ∀ e ∈ pivot, intValued e = true) :
    decodeToken (encodeToken v pivot) = some { pivot := pivot, v := some v } := by
  unfold encodeToken decodeToken
  rw [decodeB64_roundtrip (utf8Encode (jsonStringifyToken v pivot))
    (utf8Encode_bytes_lt _)]
  dsimp only
  rw [utf8Decode_encode]
  dsimp only
  rw [jsonParseToken_stringify v pivot hall]

/-! ### Timestamp serialization and pivot revival -/

theorem toMillis_int (t : Timestamp) (h : t.nanos % 1000000 = 0) :
    Timestamp.toMillis t =
      ((t.seconds * 1000 + (t.nanos / 1000000 : Nat) : Int) : ℚ) := by
  obtain ⟨k, hk⟩ : ∃ k, t.nanos = 1000000 * k := ⟨t.nanos / 1000000, by omega⟩
  simp only [Timestamp.toMillis, hk,
    Nat.mul_div_cancel_left k (by norm_num : 0 < 1000000)]
  push_cast
  rw [mul_div_cancel_left₀ ((k : ℚ)) (by norm_num : ((1000000 : ℚ)) ≠ 0)]

theorem toMillis_den_one (t : Timestamp) (h : t.nanos % 1000000 = 0) :
    (Timestamp.toMillis t).den = 1 := by
  rw [toMillis_int t h, Rat.den_intCast]

theorem fromMillis_toMillis (t : Timestamp) (h2 : t.nanos < 1000000000) :
    Timestamp.fromMillis t.toMillis = t := by
  cases t with
  | mk s n =>
    have hms : Timestamp.toMillis ⟨s, n⟩ / 1000 = (s : ℚ) + (n : ℚ) / 1000000000 := by
      simp only [Timestamp.toMillis]
      field_simp
      ring
    have hfrac0 : (0 : ℚ) ≤ (n : ℚ) / 1000000000 := by positivity
    have hfrac1 : (n : ℚ) / 1000000000 < 1 := by
      rw [div_lt_one (by norm_num)]
      exact_mod_cast h2
    have hfloor : ⌊Timestamp.toMillis ⟨s, n⟩ / 1000⌋ = s := by
      rw [hms, Int.floor_eq_iff]
      constructor
      · linarith
      · linarith
    simp only [Timestamp.fromMillis, hfloor, Timestamp.mk.injEq]
    refine ⟨trivial, ?_⟩
    have harg : (Timestamp.toMillis ⟨s, n⟩ - (s : ℚ) * 1000) * 1000000 = (n : ℚ) := by
      simp only [Timestamp.toMillis]
      field_simp
      ring
    rw [harg, round_natCast]
    simp

theorem reviveToTimestamp_serialize (t : Timestamp) (h2 : t.nanos < 1000000000) :
    reviveToTimestamp (serializePivotValue (PivotValue.ts t)) = some t := by
  simp only [serializePivotValue, reviveToTimestamp]
  rw [fromMillis_toMillis t h2]

theorem revivePivots_serialize (tsIdxs : List Nat) :
    ∀ (ps : List PivotValue) (i : Nat),
      wellTypedFrom tsIdxs i ps = true →
      revivePivots tsIdxs i (ps.map serializePivotValue) = some ps := by
  intro ps
  induction ps with
  | nil => intro i _; rfl
  | cons p rest ih =>
    intro i hwt
    simp only [wellTypedFrom, Bool.and_eq_true] at hwt
    obtain ⟨hp, hrest⟩ := hwt
    simp only [List.map_cons, revivePivots]
    by_cases hidx : tsIdxs.contains i = true
    · rw [if_pos hidx] at hp ⊢
      cases p with
      | ts t =>
        simp only [Bool.and_eq_true, decide_eq_true_eq] at hp
        rw [reviveToTimestamp_serialize t hp.2]
        rw [ih (i + 1) hrest]
        rfl
      | str s => simp at hp
      | num n => simp at hp
      | null => simp at hp
    · rw [if_neg hidx] at hp ⊢
      cases p with
      | ts t => simp at hp
      | str s =>
        rw [ih (i + 1) hrest]
        rfl
      | num n =>
        rw [ih (i + 1) hrest]
        rfl
      | null =>
        rw [ih (i + 1) hrest]
        rfl

theorem wellTyped_intValued (tsIdxs : List Nat) :
    ∀ (ps : List PivotValue) (i : Nat), wellTypedFrom tsIdxs i ps = true →
      ∀ e ∈ ps.map serializePivotValue, intValued e = true := by
  intro ps
  induction ps with
  | nil => intro i _ e he; simp at he
  | cons p rest ih =>
    intro i hwt e he
    simp only [wellTypedFrom, Bool.and_eq_true] at hwt
    obtain ⟨hp, hrest⟩ := hwt
    simp only [List.map_cons, List.mem_cons] at he
    rcases he with rfl | he
    · by_cases hidx : tsIdxs.contains i = true
      · rw [if_pos hidx] at hp
        cases p with
        | ts t =>
          simp only [Bool.and_eq_true, decide_eq_true_eq] at hp
          simp only [serializePivotValue, intValued, decide_eq_true_eq]
          exact toMillis_den_one t hp.1
        | str s => simp at hp
        | num q => simp at hp
        | null => simp at hp
      · rw [if_neg hidx] at hp
        cases p with
        | ts t => simp at hp
        | num q =>
          simp only [decide_eq_true_eq] at hp
          simp only [serializePivotValue, intValued, decide_eq_true_eq]
          exact hp
        | str s => simp [serializePivotValue, intValued]
        | null => simp [serializePivotValue, intValued]
    · exact ih (i + 1) hrest e he

theorem foldl_add_prog (l : List ProgramSel) (a : ℚ) :
    l.foldl (fun x p => x + p.priceSnapshot.getD 0 * p.qty) a
      = a + (l.map (fun p => p.priceSnapshot.getD 0 * p.qty)).sum := by
  induction l generalizing a with
  | nil => simp
  | cons p rest ih =>
    simp only [List.foldl_cons, List.map_cons, List.sum_cons, ih]
    ring

theorem foldl_add_pkg (l : List PackageSel) (a : ℚ) :
    l.foldl (fun x p => x + p.priceSnapshot.getD 0) a
      = a + (l.map (fun p => p.priceSnapshot.getD 0)).sum := by
  induction l generalizing a with
  | nil => simp
  | cons p rest ih =>
    simp only [List.foldl_cons, List.map_cons, List.sum_cons, ih]
    ring

theorem foldl_add_items (items : List BookingItem) (a : ℚ) :
    items.foldl
      (fun acc it =>
        it.packages.foldl (fun x p => x + p.priceSnapshot.getD 0)
          (it.programs.foldl (fun x p => x + p.priceSnapshot.getD 0 * p.qty) acc))
      a = a + codeSubtotal items := by
  induction items generalizing a with
  | nil => simp [codeSubtotal]
  | cons it rest ih =>
    rw [List.foldl_cons, ih, foldl_add_prog, foldl_add_pkg]
    simp only [codeSubtotal, List.map_cons, List.sum_cons]
    ring

/-! ## Claim theorems -/

/-- A concrete item list exercising a package quantity of 2: one person
with a single package selection, unit price 100, quantity 2. -/
def pkgQtyTwoItems : List BookingItem :=
  [{ programs := [], packages := [{ qty := some 2, priceSnapshot := some 100 }] }]

/-- C1 (counterexample): `computeTotals` does not multiply package unit
prices by the package quantity. On one package selection with
`qty = 2` and unit price 100 the computed subtotal is 100, while the
claimed subtotal (unit price × qty, qty defaulting to 1) is 200. -/
theorem computeTotals_package_qty_counterexample :
    (computeTotals pkgQtyTwoItems).subtotal ≠ claimedSubtotal pkgQtyTwoItems := by
  simp only [computeTotals, claimedSubtotal, pkgQtyTwoItems, List.foldl_cons,
    List.foldl_nil, List.map_cons, List.map_nil, List.sum_cons, List.sum_nil,
    Option.getD_some]
  norm_num

/-- C1 (amended): for every item list, `computeTotals` returns a subtotal
equal to the sum over program selections of `unitPrice × qty` plus the
sum over package selections of `unitPrice` alone (the package quantity is
ignored: each package selection contributes its unit price exactly once),
and `grandTotal` equal to `subtotal`. -/
theorem computeTotals_subtotal_grandTotal (items : List BookingItem) :
    (computeTotals items).subtotal = codeSubtotal items ∧
    (computeTotals items).grandTotal = (computeTotals items).subtotal := by
  constructor
  · show items.foldl _ 0 = _
    rw [foldl_add_items, zero_add]
  · rfl

/-- C2: over the three booking statuses, `assertTransition` succeeds
exactly on the pairs allowed by the §4.3 table and fails with a
statusCode-400 error on every other pair (in particular
`canceled → canceled` succeeds, so repeated cancellation does not throw). -/
theorem assertTransition_matches_spec_table (src dst : String)
    (hs : src ∈ bookingStatuses) (ht : dst ∈ bookingStatuses) :
    (assertTransition src dst = Except.ok () ↔ specAllowsTransition src dst = true) ∧
    (specAllowsTransition src dst = false →
      assertTransition src dst = Except.error
        { message := "Invalid status transition " ++ src ++ " -> " ++ dst
          statusCode := some 400 }) := by
  simp only [bookingStatuses, List.mem_cons, List.mem_singleton,
    List.not_mem_nil, or_false] at hs ht
  rcases hs with rfl | rfl | rfl <;> rcases ht with rfl | rfl | rfl <;>
    exact ⟨by decide, by decide⟩

/-- Witness for C2 at the pair `canceled → canceled`. -/
theorem assertTransition_matches_spec_table_witness :
    "canceled" ∈ bookingStatuses ∧
    (assertTransition "canceled" "canceled" = Except.ok () ↔
      specAllowsTransition "canceled" "canceled" = true) ∧
    (specAllowsTransition "canceled" "canceled" = false →
      assertTransition "canceled" "canceled" = Except.error
        { message := "Invalid status transition " ++ "canceled" ++ " -> " ++ "canceled"
          statusCode := some 400 }) :=
  ⟨by decide,
   assertTransition_matches_spec_table "canceled" "canceled" (by decide) (by decide)⟩

/-- C4: a decoded cursor whose pivot count differs from
`expectedPivotCount` for the current plan is rejected with the 400
response naming both the expected and the received count, and the pivots
are never applied (`startAfter` is never reached). -/
theorem pageToken_count_mismatch_rejected (arf : Option RangeField)
    (sortBy : String) (cursor : CursorPayload)
    (h : cursor.pivot.length ≠ expectedPivotCount arf sortBy) :
    applyPageToken arf sortBy cursor = Except.error
      (PageTokenError.countMismatch (expectedPivotCount arf sortBy)
        cursor.pivot.length) ∧
    (PageTokenError.countMismatch (expectedPivotCount arf sortBy)
        cursor.pivot.length).statusCode = 400 ∧
    ∀ pivots, applyPageToken arf sortBy cursor ≠ Except.ok pivots := by
  refine ⟨?_, rfl, ?_⟩
  · simp [applyPageToken, h]
  · intro pivots
    simp [applyPageToken, h]

/-- Witness for C4: a token built for a 2-field chain (no range filter,
sort by `createdAt`) replayed against the 3-field chain of a text-search
plan with `sortBy = "createdAt"`. -/
theorem pageToken_count_mismatch_rejected_witness :
    (({ pivot := [JsonPivot.jnum 123, JsonPivot.jstr "doc1"], v := some 1 } :
        CursorPayload).pivot.length ≠
      expectedPivotCount (some RangeField.searchKey) "createdAt") ∧
    (applyPageToken (some RangeField.searchKey) "createdAt"
        { pivot := [JsonPivot.jnum 123, JsonPivot.jstr "doc1"], v := some 1 } =
      Except.error (PageTokenError.countMismatch
        (expectedPivotCount (some RangeField.searchKey) "createdAt")
        ({ pivot := [JsonPivot.jnum 123, JsonPivot.jstr "doc1"], v := some 1 } :
          CursorPayload).pivot.length) ∧
     (PageTokenError.countMismatch
        (expectedPivotCount (some RangeField.searchKey) "createdAt")
        ({ pivot := [JsonPivot.jnum 123, JsonPivot.jstr "doc1"], v := some 1 } :
          CursorPayload).pivot.length).statusCode = 400 ∧
     ∀ pivots, applyPageToken (some RangeField.searchKey) "createdAt"
        { pivot := [JsonPivot.jnum 123, JsonPivot.jstr "doc1"], v := some 1 } ≠
       Except.ok pivots) :=
  ⟨by decide,
   pageToken_count_mismatch_rejected (some RangeField.searchKey) "createdAt"
     { pivot := [JsonPivot.jnum 123, JsonPivot.jstr "doc1"], v := some 1 }
     (by decide)⟩

/-- C5: on a canceled booking, an update-details attempt fails with the
400 "Cannot update details of canceled booking" error and the
transaction leaves the stored record unchanged; confirmation also fails
with a 400; a further cancellation still succeeds and is a no-op on the
record. -/
theorem canceled_booking_immutable (progs : String → Option ProgramDoc)
    (pkgs : String → Option PackageDoc) (b : Booking) (u : UpdateDetails)
    (h : b.status = "canceled") :
    patchTransaction progs pkgs (some b) u = Except.error
      { message := "Cannot update details of canceled booking"
        statusCode := some 400 } ∧
    runTransaction (some b) (fun s => patchTransaction progs pkgs s u) = some b ∧
    (∃ e, confirmTransaction (some b) = Except.error e ∧ e.statusCode = some 400) ∧
    cancelTransaction (some b) = Except.ok b := by
  have hpatch : patchTransaction progs pkgs (some b) u = Except.error
      { message := "Cannot update details of canceled booking"
        statusCode := some 400 } := by
    simp [patchTransaction, h]
  refine ⟨hpatch, ?_, ?_, ?_⟩
  · simp [runTransaction, hpatch]
  · refine ⟨{ message := "Invalid status transition " ++ "canceled" ++ " -> " ++ "confirmed"
              statusCode := some 400 }, ?_, rfl⟩
    have ha : assertTransition b.status "confirmed" = Except.error
        { message := "Invalid status transition " ++ "canceled" ++ " -> " ++ "confirmed"
          statusCode := some 400 } := by
      rw [h]; decide
    simp only [confirmTransaction, ha]
    rfl
  · have hb2 : ({ b with status := "canceled" } : Booking) = b := by
      cases b
      simp_all
    have ha : assertTransition b.status "canceled" = Except.ok () := by
      rw [h]; decide
    simp only [cancelTransaction, ha]
    rw [← hb2]
    rfl

/-- A concrete canceled booking for the C5 witness. -/
def canceledBooking : Booking :=
  { status := "canceled"
    arrivalAt := { seconds := 1700000000, nanos := 0 }
    contact := { name := some "Ann", email := some "a@b.c", phone := none }
    items := []
    note := ""
    partySize := 0
    totals := { subtotal := 0, grandTotal := 0 } }

/-- Witness for C5 at a concrete canceled booking and an empty update. -/
theorem canceled_booking_immutable_witness :
    canceledBooking.status = "canceled" ∧
    (patchTransaction (fun _ => none) (fun _ => none) (some canceledBooking)
        { arrivalAt := none, contact := none, items := none, note := none } =
      Except.error
        { message := "Cannot update details of canceled booking"
          statusCode := some 400 } ∧
     runTransaction (some canceledBooking)
        (fun s => patchTransaction (fun _ => none) (fun _ => none) s
          { arrivalAt := none, contact := none, items := none, note := none }) =
       some canceledBooking ∧
     (∃ e, confirmTransaction (some canceledBooking) = Except.error e ∧
        e.statusCode = some 400) ∧
     cancelTransaction (some canceledBooking) = Except.ok canceledBooking) :=
  ⟨rfl,
   canceled_booking_immutable (fun _ => none) (fun _ => none) canceledBooking
     { arrivalAt := none, contact := none, items := none, note := none } rfl⟩

/-- C7: whenever the applied range field is the date range (`createdAt`)
and the requested sort field is `"name"`, the ordering chain is exactly
`[createdAt, name, docId]` and `expectedPivotCount` is 3. -/
theorem dateRange_name_chain (p : ListParams)
    (harf : appliedRangeField p = some RangeField.createdAt)
    (hs : p.sortBy = "name") :
    orderChain (appliedRangeField p) p.sortBy = ["createdAt", "name", "__name__"] ∧
    expectedPivotCount (appliedRangeField p) p.sortBy = 3 := by
  rw [harf, hs]
  decide

/-- Witness for C7 at a concrete request with a `from` bound and
`sortBy = "name"`. -/
theorem dateRange_name_chain_witness :
    appliedRangeField
        { status := none, fromTs := some { seconds := 0, nanos := 0 }, toTs := none
          sortBy := "name", sortDir := SortDir.desc, q := none, pageSize := 25 } =
      some RangeField.createdAt ∧
    (orderChain
        (appliedRangeField
          { status := none, fromTs := some { seconds := 0, nanos := 0 }, toTs := none
            sortBy := "name", sortDir := SortDir.desc, q := none, pageSize := 25 })
        "name" = ["createdAt", "name", "__name__"] ∧
     expectedPivotCount
        (appliedRangeField
          { status := none, fromTs := some { seconds := 0, nanos := 0 }, toTs := none
            sortBy := "name", sortDir := SortDir.desc, q := none, pageSize := 25 })
        "name" = 3) :=
  ⟨by decide,
   dateRange_name_chain
     { status := none, fromTs := some { seconds := 0, nanos := 0 }, toTs := none
       sortBy := "name", sortDir := SortDir.desc, q := none, pageSize := 25 }
     (by decide) rfl⟩

/-- C8: when a text-prefix term is supplied, the range predicates are
exactly the two prefix bounds (term and term with the maximal trailing
sentinel appended) on the searched field — no predicate on the creation
timestamp is applied — and the advisory notice appears in the response
metadata precisely when a date bound was also supplied (so a request
carrying only one of the two never shows the notice). -/
theorem qtext_precedence_and_notice (p : ListParams) :
    (strTruthy p.q = true →
      rangeWheres p =
        [{ field := "contact.name", op := ">="
           value := FilterValue.fstr (((p.q.getD "").trim).toUpper) },
         { field := "contact.name", op := "<"
           value := FilterValue.fstr ((((p.q.getD "").trim).toUpper) ++ sentinel) }] ∧
      ∀ w ∈ rangeWheres p, w.field ≠ "createdAt") ∧
    (metaHasNotice p = true ↔
      strTruthy p.q = true ∧ (p.fromTs.isSome = true ∨ p.toTs.isSome = true)) := by
  constructor
  · intro hq
    have hw : rangeWheres p =
        [{ field := "contact.name", op := ">="
           value := FilterValue.fstr (((p.q.getD "").trim).toUpper) },
         { field := "contact.name", op := "<"
           value := FilterValue.fstr ((((p.q.getD "").trim).toUpper) ++ sentinel) }] := by
      simp [rangeWheres, hq]
    refine ⟨hw, ?_⟩
    intro w hwmem
    rw [hw] at hwmem
    simp only [List.mem_cons, List.not_mem_nil, or_false] at hwmem
    rcases hwmem with rfl | rfl
    · simp
    · simp
  · simp [metaHasNotice, Bool.and_eq_true, Bool.or_eq_true]

/-- Witness for C8: with both `q = "anna"` and a `from` bound, the
filters are the two prefix bounds and the notice is present; with only
`q`, or only the date bound, the notice is absent. -/
theorem qtext_precedence_and_notice_witness :
    rangeWheres
        { status := none, fromTs := some { seconds := 0, nanos := 0 }, toTs := none
          sortBy := "createdAt", sortDir := SortDir.desc, q := some "anna"
          pageSize := 25 } =
      [{ field := "contact.name", op := ">="
         value := FilterValue.fstr (("anna").trim.toUpper) },
       { field := "contact.name", op := "<"
         value := FilterValue.fstr (("anna").trim.toUpper ++ sentinel) }] ∧
    metaHasNotice
        { status := none, fromTs := some { seconds := 0, nanos := 0 }, toTs := none
          sortBy := "createdAt", sortDir := SortDir.desc, q := some "anna"
          pageSize := 25 } = true ∧
    metaHasNotice
        { status := none, fromTs := none, toTs := none
          sortBy := "createdAt", sortDir := SortDir.desc, q := some "anna"
          pageSize := 25 } = false ∧
    metaHasNotice
        { status := none, fromTs := some { seconds := 0, nanos := 0 }, toTs := none
          sortBy := "createdAt", sortDir := SortDir.desc, q := none
          pageSize := 25 } = false := by
  refine ⟨?_, ?_, ?_, ?_⟩
  · have h := (qtext_precedence_and_notice
      { status := none, fromTs := some { seconds := 0, nanos := 0 }, toTs := none
        sortBy := "createdAt", sortDir := SortDir.desc, q := some "anna"
        pageSize := 25 }).1 (by decide)
    exact h.1
  · exact (qtext_precedence_and_notice
      { status := none, fromTs := some { seconds := 0, nanos := 0 }, toTs := none
        sortBy := "createdAt", sortDir := SortDir.desc, q := some "anna"
        pageSize := 25 }).2.mpr ⟨by decide, Or.inl (by decide)⟩
  · decide
  · decide

/-- The listing parameters of a text-search request (`q = "anna"`), used
to exhibit the range-field / first-sort-key mismatch. -/
def textSearchParams : ListParams :=
  { status := none, fromTs := none, toTs := none, sortBy := "createdAt"
    sortDir := SortDir.desc, q := some "anna", pageSize := 25 }

/-- C9 evidence: a missing booking id is answered 404 by GET /:id, but
the PATCH, confirm and cancel transactions throw a bare
`Error("Booking not found")` with no `statusCode`; with no error
middleware registered, such an error renders as a 500 server fault, not
a 4xx client error. -/
theorem booking_not_found_is_server_fault :
    getByIdResult none = Except.error
      { message := "Booking not found", statusCode := some 404 } ∧
    patchTransaction (fun _ => none) (fun _ => none) none
        { arrivalAt := none, contact := none, items := none, note := none } =
      Except.error { message := "Booking not found", statusCode := none } ∧
    confirmTransaction none = Except.error
      { message := "Booking not found", statusCode := none } ∧
    cancelTransaction none = Except.error
      { message := "Booking not found", statusCode := none } ∧
    renderedStatus { message := "Booking not found", statusCode := none } = 500 ∧
    ¬ isClientStatus 500 := by
  refine ⟨rfl, rfl, rfl, rfl, rfl, ?_⟩
  intro h
  exact absurd h.2 (by decide)

/-- C3 evidence: on a text-search request the range predicates are
applied to `contact.name`, yet the first key of the ordering chain is
`searchKey` — the range-filtered field is not the first sort key,
contradicting the claim (and the code's own comment that a range on
field X must be ordered by X first). -/
theorem textSearch_rangefield_not_first_sort_key :
    (rangeWheres textSearchParams).map WhereClause.field =
      ["contact.name", "contact.name"] ∧
    (orderChain (appliedRangeField textSearchParams)
        textSearchParams.sortBy).head? = some "searchKey" ∧
    ("contact.name" : String) ≠ "searchKey" := by
  refine ⟨by decide, by decide, by decide⟩

/-- C6 (amended): the claimed round trip holds on the domain
`wellTypedFrom` carves out — pivot tuples whose `Timestamp` values sit
exactly at the positions the plan classifies as timestamps, with
whole-millisecond precision, and whose numeric slots are integers: for
every query plan and every such tuple of the plan's shape, decoding an
encoded token recovers the serialized tuple exactly, and reviving its
classified positions recovers the original pivot tuple; in particular a
timestamp serialized to epoch milliseconds is revived back to an equal
timestamp. As claimed universally over every tuple matching the chain
shape, the property is false — see the counterexample, a timestamp
under a `sortBy` field the plan does not classify. -/
theorem cursor_token_roundtrip (arf : Option RangeField) (sortBy : String)
    (pivots : List PivotValue)
    (hwt : wellTypedFrom (timestampPivotIndexes arf sortBy) 0 pivots = true)
    (_hlen : pivots.length = expectedPivotCount arf sortBy) :
    decodeToken (encodeToken 1 (pivots.map serializePivotValue)) =
      some { pivot := pivots.map serializePivotValue, v := some 1 } ∧
    revivePivots (timestampPivotIndexes arf sortBy) 0
      (pivots.map serializePivotValue) = some pivots :=
  ⟨decodeToken_encodeToken 1 (pivots.map serializePivotValue)
     (wellTyped_intValued (timestampPivotIndexes arf sortBy) pivots 0 hwt),
   revivePivots_serialize (timestampPivotIndexes arf sortBy) pivots 0 hwt⟩

/-- Witness for C6: the date-range plan sorted by `name` (ordering chain
`[createdAt, name, docId]`), whose pivot tuple carries a timestamp at
position 0, a name and a document id. -/
theorem cursor_token_roundtrip_witness :
    wellTypedFrom
        (timestampPivotIndexes (some RangeField.createdAt) "name") 0
        [PivotValue.ts { seconds := 1700000000, nanos := 0 },
         PivotValue.str "Anna", PivotValue.str "b00king1"] = true ∧
    ([PivotValue.ts { seconds := 1700000000, nanos := 0 },
      PivotValue.str "Anna", PivotValue.str "b00king1"] :
        List PivotValue).length =
      expectedPivotCount (some RangeField.createdAt) "name" ∧
    (decodeToken (encodeToken 1
        (([PivotValue.ts { seconds := 1700000000, nanos := 0 },
           PivotValue.str "Anna", PivotValue.str "b00king1"] :
            List PivotValue).map serializePivotValue)) =
      some { pivot :=
               ([PivotValue.ts { seconds := 1700000000, nanos := 0 },
                 PivotValue.str "Anna", PivotValue.str "b00king1"] :
                  List PivotValue).map serializePivotValue
             v := some 1 } ∧
     revivePivots (timestampPivotIndexes (some RangeField.createdAt) "name") 0
        (([PivotValue.ts { seconds := 1700000000, nanos := 0 },
           PivotValue.str "Anna", PivotValue.str "b00king1"] :
            List PivotValue).map serializePivotValue) =
      some [PivotValue.ts { seconds := 1700000000, nanos := 0 },
            PivotValue.str "Anna", PivotValue.str "b00king1"]) :=
  ⟨by decide, by decide,
   cursor_token_roundtrip (some RangeField.createdAt) "name"
     [PivotValue.ts { seconds := 1700000000, nanos := 0 },
      PivotValue.str "Anna", PivotValue.str "b00king1"]
     (by decide) (by decide)⟩

/-- C6 counterexample: the claim quantifies over every pivot tuple
matching any ordering-chain shape, but a `Timestamp` at a position the
plan does not classify is not revived. A date-range listing with
`sortBy = "arrivalAt"` (reachable: `sortBy` is an arbitrary string and
bookings store `arrivalAt` as a `Timestamp`) has chain
`[createdAt, arrivalAt, __name__]` and `timestampPivotIndexes` names
only position 0, so the tuple's second timestamp — serialized to epoch
milliseconds — decodes and revives to a plain number, not an equal
`Timestamp`: the round trip does not return the original tuple. -/
theorem cursor_token_roundtrip_counterexample :
    arrivalSortedPivots.length =
      expectedPivotCount (some RangeField.createdAt) "arrivalAt" ∧
    decodeToken (encodeToken 1 (arrivalSortedPivots.map serializePivotValue)) =
      some { pivot := arrivalSortedPivots.map serializePivotValue, v := some 1 } ∧
    revivePivots (timestampPivotIndexes (some RangeField.createdAt) "arrivalAt") 0
        (arrivalSortedPivots.map serializePivotValue) =
      some [PivotValue.ts { seconds := 1700000000, nanos := 0 },
            PivotValue.num 1700000100000, PivotValue.str "b00king1"] ∧
    ¬ ([PivotValue.ts { seconds := 1700000000, nanos := 0 },
        PivotValue.num 1700000100000, PivotValue.str "b00king1"] =
       arrivalSortedPivots) := by
  refine ⟨by decide, decodeToken_encodeToken 1 _ ?_, ?_, ?_⟩
  · intro e he
    simp only [arrivalSortedPivots, List.map_cons, List.map_nil, List.mem_cons,
      List.not_mem_nil, or_false, serializePivotValue] at he
    rcases he with rfl | rfl | rfl
    · simp only [intValued, decide_eq_true_eq]
      exact toMillis_den_one _ (by norm_num)
    · simp only [intValued, decide_eq_true_eq]
      exact toMillis_den_one _ (by norm_num)
    · rfl
  · have h0 : (timestampPivotIndexes
        (some RangeField.createdAt) "arrivalAt").contains 0 = true := by decide
    have h1 : (timestampPivotIndexes
        (some RangeField.createdAt) "arrivalAt").contains 1 = false := by decide
    have h2 : (timestampPivotIndexes
        (some RangeField.createdAt) "arrivalAt").contains 2 = false := by decide
    have e0 : reviveToTimestamp (serializePivotValue
        (PivotValue.ts { seconds := 1700000000, nanos := 0 })) =
        some { seconds := 1700000000, nanos := 0 } :=
      reviveToTimestamp_serialize _ (by norm_num)
    have e1 : passThrough (serializePivotValue
        (PivotValue.ts { seconds := 1700000100, nanos := 0 })) =
        PivotValue.num 1700000100000 := by
      simp only [serializePivotValue, passThrough, PivotValue.num.injEq,
        Timestamp.toMillis]
      norm_num
    simp only [arrivalSortedPivots, List.map_cons, List.map_nil, revivePivots,
      h0, h1, h2, if_true, Bool.false_eq_true, if_false, e0, e1, Option.map_some]
    rfl
  · simp [arrivalSortedPivots]

/-- C10: the pivot array built for `nextPageToken` mirrors the orderBy
chain: its length always equals `expectedPivotCount` for the same plan,
so replaying the token against unchanged query parameters can never hit
the pivot-count-mismatch rejection. -/
theorem nextPivot_length_matches_expected (arf : Option RangeField)
    (sortBy : String) (d : StoredDoc) :
    (buildNextPivot arf sortBy d).length = expectedPivotCount arf sortBy ∧
    ∀ a b, applyPageToken arf sortBy
        { pivot := buildNextPivot arf sortBy d, v := some 1 } ≠
      Except.error (PageTokenError.countMismatch a b) := by
  have hlen : (buildNextPivot arf sortBy d).length = expectedPivotCount arf sortBy := by
    rcases arf with _ | rf
    · simp only [buildNextPivot, expectedPivotCount]
      by_cases h : sortBy = ""
      · simp [h]
      · simp [h]
    · cases rf
      · simp only [buildNextPivot, expectedPivotCount]
        by_cases h : sortBy = "searchKey"
        · simp [h]
        · simp [h]
      · simp only [buildNextPivot, expectedPivotCount]
        by_cases h : sortBy = "createdAt"
        · simp [h]
        · simp [h]
  refine ⟨hlen, ?_⟩
  intro a b
  have hc : ¬ (({ pivot := buildNextPivot arf sortBy d, v := some 1 } :
      CursorPayload).pivot.length ≠ expectedPivotCount arf sortBy) := by
    simpa using hlen
  unfold applyPageToken
  rw [if_neg hc]
  split <;> simp

end Deflora
